import Mathlib

/-!
Verification development for the agent-orchestrator workflow engine
(`microservices/agent-orchestrator/main.py`).

The Python service keeps all state in two in-process dicts
(`workflows`, `agent_results`) and drives each workflow with the
coroutine `execute_workflow`, which sorts the task list once, then
iterates the sorted schedule: checking for an externally-delivered
pause, checking dependency eligibility against a pass-local
`completed_tasks` list, dispatching eligible tasks to the agent
executor, and updating `progress`, `results` and the result log.

Embedding conventions:
* Python dicts become association lists with dict assignment semantics
  (`dictSet`: update in place if the key exists, else append).
* Floats (`progress`, `confidence`, `temperature`, elapsed times)
  become rationals; no claim here depends on rounding behaviour.
* Wall-clock values (`time.time()`, `datetime.now()`) are supplied as
  explicit numeric parameters.
* The HTTP call to the inference backend becomes an oracle
  `AgentTask → Except String ExecPayload`: `.ok` models a 2xx response
  with its JSON body, `.error` models any raised exception (timeout,
  non-2xx, connection failure), carrying the exception text.
* Pause requests land between loop iterations (the only suspension
  points are the awaited executor calls); they are modelled by a
  signal `ext : Nat → Bool` telling whether a pause was delivered
  before the status check of a given schedule slot.
* A ghost event trace (`RunEvent`) records what each schedule slot
  did; it is observation-only instrumentation and feeds no decision.
-/

/-- Workflow lifecycle states (`class WorkflowStatus`). -/
inductive WorkflowStatus
  | pending
  | in_progress
  | completed
  | failed
  | paused
deriving DecidableEq, Repr

/-- Per-task result payload stored in `workflow["results"][agent_type]`
(the dict literal at lines 238-242 of the source). -/
structure ResData where
  response : String
  confidence : ℚ
  processing_time : ℚ
deriving DecidableEq, Repr

/-- Context values: the original task context holds opaque
caller-supplied data (modelled as strings); the runner injects the
current results map under the key "previous_results". -/
inductive CtxVal
  | str (s : String)
  | results (r : List (String × ResData))
deriving DecidableEq, Repr

/-- `class AgentTask` (pydantic model): one unit of work. -/
structure AgentTask where
  agent_type : String
  task : String
  context : List (String × CtxVal) := []
  dependencies : List String := []
  priority : Int := 1
deriving DecidableEq, Repr

/-- `class WorkflowRequest`: the create-workflow payload. -/
structure WorkflowRequest where
  workflow_id : Option String := none
  project_name : String
  description : String
  tasks : List AgentTask
  metadata : List (String × String) := []
deriving DecidableEq, Repr

/-- The workflow record built by `create_workflow` and mutated in
place by the runner.  `started_at` / `completed_at` carry abstract
clock readings. -/
structure Workflow where
  workflow_id : String
  project_name : String
  description : String
  tasks : List AgentTask
  metadata : List (String × String)
  status : WorkflowStatus
  started_at : Nat
  completed_at : Option Nat
  progress : ℚ
  results : List (String × ResData)
  error_message : Option String
deriving DecidableEq, Repr

/-- `class AgentResult`: one entry of the append-only result log
`agent_results[workflow_id]`. -/
structure AgentResultEntry where
  agent_type : String
  task_id : String
  response : String
  confidence : ℚ
  processing_time : ℚ
  status : String
deriving DecidableEq, Repr

/-- Python dict lookup `d.get(k)`. -/
def dictGet {α : Type} (l : List (String × α)) (k : String) : Option α :=
  (l.find? (fun p => p.1 == k)).map (fun p => p.2)

/-- Python dict assignment `d[k] = v`: overwrite in place if the key
exists (keeping its position), else append at the end. -/
def dictSet {α : Type} (l : List (String × α)) (k : String) (v : α) :
    List (String × α) :=
  if (l.find? (fun p => p.1 == k)).isSome then
    l.map (fun p => if p.1 == k then (k, v) else p)
  else
    l ++ [(k, v)]

/-- The process-wide mutable state: the `workflows` dict and the
`agent_results` dict. -/
structure Store where
  workflows : List (String × Workflow)
  agent_results : List (String × List AgentResultEntry)
deriving DecidableEq, Repr

/-- Sort key of `sorted(tasks, key=lambda x: (len(x["dependencies"]), -x["priority"]))`. -/
def taskKey (t : AgentTask) : Nat × Int :=
  (t.dependencies.length, -t.priority)

/-- Lexicographic comparison of sort keys, as Python compares tuples. -/
def keyLe (a b : Nat × Int) : Bool :=
  decide (a.1 < b.1) || (decide (a.1 = b.1) && decide (a.2 ≤ b.2))

/-- Stable insertion of a task into an already-built list: the new
task goes in front of the first element it compares `≤` to.  Since
`keyLe` is reflexive, a task inserted later than its build order never
jumps ahead of an equal-key task. -/
def insertTask (x : AgentTask) : List AgentTask → List AgentTask
  | [] => [x]
  | y :: ys =>
      if keyLe (taskKey x) (taskKey y) then x :: y :: ys
      else y :: insertTask x ys

/-- Embedding of Python's stable `sorted` at line 214: built by
right-fold insertion, which preserves the original relative order of
equal-key tasks (stable-sort output is unique, so any stable sort by
the same key is extensionally Python's `sorted`). -/
def sortTasks (ts : List AgentTask) : List AgentTask :=
  ts.foldr insertTask []

/-- Success body of the executor HTTP response: `result_data` JSON
with optional fields read by `.get("response", "")` and
`.get("confidence", 0.9)`, plus the measured elapsed wall time. -/
structure ExecPayload where
  response : Option String
  confidence : Option ℚ
  elapsed : ℚ
deriving DecidableEq, Repr

/-- The request assembled for the executor (`request_data` at lines
276-282 of the source). -/
structure AgentRequest where
  agent_type : String
  task : String
  context : List (String × CtxVal)
  max_tokens : Nat
  temperature : ℚ
deriving DecidableEq, Repr

/-- Embedding of `execute_agent_task`: builds the request (injecting
the current results snapshot under "previous_results"), invokes the
executor oracle, and either packages an `AgentResult` or propagates
the failure.  The `workflow_id in workflows` guard of line 272 is
always true on the runner's path (the caller just read the record), so
the injection is unconditional here.  The in-place mutation of the
task's own context dict is claim-irrelevant (the key is overwritten on
every call) and is not persisted. -/
def execute_agent_task (oracle : AgentTask → Except String ExecPayload)
    (wfid : String) (results : List (String × ResData))
    (t : AgentTask) (now : Nat) :
    AgentRequest × Except String AgentResultEntry :=
  let task_id := wfid ++ "_" ++ t.agent_type ++ "_" ++ toString now
  let ctx := dictSet t.context "previous_results" (CtxVal.results results)
  let req : AgentRequest :=
    { agent_type := t.agent_type
      task := t.task
      context := ctx
      max_tokens := 500
      temperature := 7 / 10 }
  match oracle t with
  | .ok p =>
      (req, .ok
        { agent_type := t.agent_type
          task_id := task_id
          response := p.response.getD ""
          confidence := p.confidence.getD (9 / 10)
          processing_time := p.elapsed
          status := "completed" })
  | .error e => (req, .error e)

/-- The `AgentResult` value `execute_agent_task` returns when the
executor call succeeds with body `p` (see lines 298-309): note it
depends only on the task, the clock and the payload — not on the
accumulated results map. -/
def mkE (wfid : String) (now : Nat) (t : AgentTask) (p : ExecPayload) :
    AgentResultEntry :=
  { agent_type := t.agent_type
    task_id := wfid ++ "_" ++ t.agent_type ++ "_" ++ toString now
    response := p.response.getD ""
    confidence := p.confidence.getD (9 / 10)
    processing_time := p.elapsed
    status := "completed" }

/-- Ghost trace of what one schedule slot did. -/
inductive RunEvent
  | pausedHalt (slot : Nat)
  | skipped (slot : Nat) (t : AgentTask)
  | executed (slot : Nat) (t : AgentTask) (req : AgentRequest)
      (entry : AgentResultEntry)
  | failedHalt (slot : Nat) (t : AgentTask) (req : AgentRequest)
      (cause : String)
deriving DecidableEq, Repr

/-- Environment of one runner pass: the executor oracle, the pause
signal (was a pause delivered before slot `i`'s status check), the
clock sampled at each slot, and the clock at completion. -/
structure RunCfg where
  oracle : AgentTask → Except String ExecPayload
  ext : Nat → Bool
  now : Nat → Nat
  fin_time : Nat

/-- In-flight state of one runner pass: the workflow record, the
result log, the pass-local `completed_tasks` list, the ghost event
trace, and whether the coroutine has returned early. -/
structure RunState where
  wf : Workflow
  log : List AgentResultEntry
  completed : List String
  events : List RunEvent
  halted : Bool
deriving DecidableEq, Repr

/-- Result payload copied into `workflow["results"]` (lines 238-242). -/
def resDataOf (entry : AgentResultEntry) : ResData :=
  { response := entry.response
    confidence := entry.confidence
    processing_time := entry.processing_time }

/-- Delivery of an externally-requested pause (the `pause_workflow`
handler writing `status = PAUSED` during the suspension window before
slot `i`'s status check). -/
def applyExt (cfg : RunCfg) (i : Nat) (st : RunState) : RunState :=
  if cfg.ext i then { st with wf := { st.wf with status := .paused } }
  else st

/-- Body of one loop iteration after the pause signal has landed:
return if paused, skip if dependencies are not all in the pass-local
`completed_tasks`, otherwise dispatch and either record the result and
recompute `progress = (i + 1) / total_tasks * 100`, or transition to
FAILED with `error_message = "Task <role> failed: <cause>"` and
return. -/
def stepBody (cfg : RunCfg) (wfid : String) (total : Nat)
    (st : RunState) (i : Nat) (t : AgentTask) : RunState :=
  if st.wf.status = .paused then
    { st with halted := true, events := st.events ++ [.pausedHalt i] }
  else if ¬ t.dependencies.all (fun d => st.completed.contains d) then
    { st with events := st.events ++ [.skipped i t] }
  else
    match (execute_agent_task cfg.oracle wfid st.wf.results t (cfg.now i)).2 with
    | .ok entry =>
        { st with
          wf := { st.wf with
            progress := ((i + 1 : ℚ) / (total : ℚ)) * 100
            results := dictSet st.wf.results t.agent_type (resDataOf entry) }
          log := st.log ++ [entry]
          completed := st.completed ++ [t.agent_type]
          events := st.events ++
            [.executed i t
              (execute_agent_task cfg.oracle wfid st.wf.results t (cfg.now i)).1 entry] }
    | .error e =>
        { st with
          halted := true
          wf := { st.wf with
            status := .failed
            error_message :=
              some ("Task " ++ t.agent_type ++ " failed: " ++ e) }
          events := st.events ++
            [.failedHalt i t
              (execute_agent_task cfg.oracle wfid st.wf.results t (cfg.now i)).1 e] }

/-- One iteration of the `for i, task in enumerate(sorted_tasks)` loop
(lines 216-250); a no-op when the coroutine already returned. -/
def runStep (cfg : RunCfg) (wfid : String) (total : Nat)
    (st : RunState) (i : Nat) (t : AgentTask) : RunState :=
  if st.halted then st
  else stepBody cfg wfid total (applyExt cfg i st) i t

/-- Runs the remaining schedule slots, numbering them from `i`. -/
def runSlots (cfg : RunCfg) (wfid : String) (total : Nat) :
    Nat → List AgentTask → RunState → RunState
  | _, [], st => st
  | i, t :: ts, st => runSlots cfg wfid total (i + 1) ts (runStep cfg wfid total st i t)

/-- Observation trace of a pass: the state at each suspension point
(before each slot) plus the state after the last slot.  Consecutive
non-awaiting steps (skips, the final bookkeeping) expose no extra
interleaving in the source; including them here only adds duplicate
or atomically-superseded snapshots. -/
def runTrace (cfg : RunCfg) (wfid : String) (total : Nat) :
    Nat → List AgentTask → RunState → List RunState
  | _, [], st => [st]
  | i, t :: ts, st => st :: runTrace cfg wfid total (i + 1) ts (runStep cfg wfid total st i t)

/-- Initial pass state (lines 204-210): the record with status forced
to IN_PROGRESS, the existing result log, and an empty pass-local
`completed_tasks` list — notably NOT seeded from `workflow["results"]`. -/
def initState (s : Store) (id : String) (wf : Workflow) : RunState :=
  { wf := { wf with status := .in_progress }
    log := (dictGet s.agent_results id).getD []
    completed := []
    events := []
    halted := false }

/-- Embedding of `execute_workflow`: look up the record (an unknown id
would raise out of the background coroutine leaving the store
untouched), force status IN_PROGRESS, sort the schedule once, run the
slots, and unless the pass returned early mark COMPLETED with progress
forced to 100.  Returns the updated store, the final pass state (whose
`events` field is the full ghost trace), and the observation trace. -/
def execute_workflow (cfg : RunCfg) (s : Store) (id : String) :
    Store × RunState × List RunState :=
  match dictGet s.workflows id with
  | none => (s, ⟨⟨id, "", "", [], [], .failed, 0, none, 0, [], none⟩, [], [], [], true⟩, [])
  | some wf =>
      let total := wf.tasks.length
      let st0 := initState s id wf
      let stf := runSlots cfg id total 0 (sortTasks wf.tasks) st0
      let wfF :=
        if stf.halted then stf.wf
        else { stf.wf with
          status := .completed
          completed_at := some cfg.fin_time
          progress := 100 }
      ({ workflows := dictSet s.workflows id wfF
         agent_results := dictSet s.agent_results id stf.log },
       { stf with wf := wfF },
       runTrace cfg id total 0 (sortTasks wf.tasks) st0)

/-- The pass state after all schedule slots of one `execute_workflow`
run over the stored record `wf` (before the completion bookkeeping). -/
def passFin (cfg : RunCfg) (s : Store) (id : String) (wf : Workflow) : RunState :=
  runSlots cfg id wf.tasks.length 0 (sortTasks wf.tasks) (initState s id wf)

/-- Error taxonomy surfaced by the HTTP handlers: 404 and the 400 of
`resume_workflow` on a non-paused workflow. -/
inductive OrchErr
  | notFound
  | invalidState
deriving DecidableEq, Repr

/-- Embedding of `create_workflow`: choose the supplied id or the
generated one (`str(uuid.uuid4())` is the parameter `gen`), build the
fresh PENDING record, and assign both dict entries — note the source
performs plain dict assignment with no existence check. -/
def create_workflow (req : WorkflowRequest) (gen : String) (now : Nat)
    (s : Store) : Store × Workflow :=
  let id := req.workflow_id.getD gen
  let wf : Workflow :=
    { workflow_id := id
      project_name := req.project_name
      description := req.description
      tasks := req.tasks
      metadata := req.metadata
      status := .pending
      started_at := now
      completed_at := none
      progress := 0
      results := []
      error_message := none }
  ({ workflows := dictSet s.workflows id wf
     agent_results := dictSet s.agent_results id [] },
   wf)

/-- Embedding of `pause_workflow`: 404 on unknown id, otherwise set
status PAUSED unconditionally — the source has no guard on the current
status. -/
def pause_workflow (s : Store) (id : String) : Except OrchErr Store :=
  match dictGet s.workflows id with
  | none => .error .notFound
  | some wf =>
      .ok { s with
        workflows := dictSet s.workflows id { wf with status := .paused } }

/-- Embedding of `resume_workflow`: 404 on unknown id, 400 when the
status is not PAUSED (the handler raises before any mutation), else
set IN_PROGRESS; the relaunched background pass is modelled by a
subsequent `execute_workflow` call. -/
def resume_workflow (s : Store) (id : String) : Except OrchErr Store :=
  match dictGet s.workflows id with
  | none => .error .notFound
  | some wf =>
      if wf.status ≠ .paused then .error .invalidState
      else
        .ok { s with
          workflows :=
            dictSet s.workflows id { wf with status := .in_progress } }

/-- Schedule slot an event belongs to. -/
def eventSlot : RunEvent → Nat
  | .pausedHalt i => i
  | .skipped i _ => i
  | .executed i _ _ _ => i
  | .failedHalt i _ _ _ => i

/-- Task an event concerns (none for a pause halt). -/
def eventTask : RunEvent → Option AgentTask
  | .pausedHalt _ => none
  | .skipped _ t => some t
  | .executed _ t _ _ => some t
  | .failedHalt _ t _ _ => some t

/-- Request an event dispatched to the executor, if any: exactly the
executed and failed events invoked the Agent Executor. -/
def eventReq : RunEvent → Option AgentRequest
  | .executed _ _ req _ => some req
  | .failedHalt _ _ req _ => some req
  | _ => none

/-- Whether the event is a successful dispatch. -/
def isExec : RunEvent → Bool
  | .executed _ _ _ _ => true
  | _ => false

/-- Event with its dispatched request erased: the control-flow shape
of a slot (the request embeds the accumulated results snapshot, the
shape does not). -/
inductive EventShape
  | pausedHalt (slot : Nat)
  | skipped (slot : Nat) (t : AgentTask)
  | executed (slot : Nat) (t : AgentTask) (entry : AgentResultEntry)
  | failedHalt (slot : Nat) (t : AgentTask) (cause : String)
deriving DecidableEq, Repr

/-- Shape projection of one event. -/
def shapeOf : RunEvent → EventShape
  | .pausedHalt i => .pausedHalt i
  | .skipped i t => .skipped i t
  | .executed i t _ entry => .executed i t entry
  | .failedHalt i t _ e => .failedHalt i t e

/-- Shape projection of a trace. -/
def shapeEvents (es : List RunEvent) : List EventShape :=
  es.map shapeOf

/-- Results map reconstructed from the successful dispatches of an
event trace, in order (later results overwrite earlier ones of the
same role, as the source's dict assignment does). -/
def resultsFromEvents (es : List RunEvent) : List (String × ResData) :=
  es.foldl
    (fun acc ev =>
      match ev with
      | .executed _ t _ entry => dictSet acc t.agent_type (resDataOf entry)
      | _ => acc)
    []

/-- Whether an executor call succeeded. -/
def isOkE {ε α : Type} : Except ε α → Bool
  | .ok _ => true
  | .error _ => false

/-- Status of a stored workflow. -/
def statusAt (s : Store) (id : String) : Option WorkflowStatus :=
  (dictGet s.workflows id).map (fun wf => wf.status)

/-- Progress of a stored workflow. -/
def progressAt (s : Store) (id : String) : Option ℚ :=
  (dictGet s.workflows id).map (fun wf => wf.progress)

/-- Progress values visible at the suspension points of one pass,
ending with the final stored value. -/
def passObs (out : Store × RunState × List RunState) : List ℚ :=
  out.2.2.map (fun st => st.wf.progress) ++ [out.2.1.wf.progress]

/-- Agent roles of a task list. -/
def rolesOf (ts : List AgentTask) : List String :=
  ts.map (fun t => t.agent_type)

/-- The empty store at process start. -/
def s0 : Store := ⟨[], []⟩

/-- Executor oracle that succeeds on every task. -/
def okOracle : AgentTask → Except String ExecPayload :=
  fun t => .ok ⟨some ("R-" ++ t.agent_type), some (1 / 2), 1⟩

/-- Executor oracle that fails on role "b" with cause "boom". -/
def failBOracle : AgentTask → Except String ExecPayload :=
  fun t => if t.agent_type == "b" then .error "boom" else okOracle t

/-- Environment with no pause requests and an all-success executor. -/
def cfgRun : RunCfg := ⟨okOracle, fun _ => false, fun i => i, 99⟩

/-- Environment delivering one pause request before slot 3. -/
def cfgPause3 : RunCfg := ⟨okOracle, fun i => i == 3, fun i => i, 99⟩

/-- Environment with no pauses whose executor fails on role "b". -/
def cfgFailB : RunCfg := ⟨failBOracle, fun _ => false, fun i => i, 99⟩

/-- Chain of four tasks a ← b ← c ← d, priorities 4,3,2,1: the
schedule sorts them a, b, c, d. -/
def tA : AgentTask := ⟨"a", "task a", [], [], 4⟩

/-- Second task of the chain, depending on role "a". -/
def tB : AgentTask := ⟨"b", "task b", [], ["a"], 3⟩

/-- Third task of the chain, depending on role "b". -/
def tC : AgentTask := ⟨"c", "task c", [], ["b"], 2⟩

/-- Fourth task of the chain, depending on role "c". -/
def tD : AgentTask := ⟨"d", "task d", [], ["c"], 1⟩

/-- Task with a dependency on role "ghost", which no task provides. -/
def tGhostDep : AgentTask := ⟨"pm", "task pm", [], ["ghost"], 5⟩

/-- Dependency-free task of the skip scenario. -/
def tDev : AgentTask := ⟨"dev", "task dev", [], [], 1⟩

/-- Task of the skip scenario depending on role "dev". -/
def tBa : AgentTask := ⟨"ba", "task ba", [], ["dev"], 1⟩

/-- Create request for the four-task chain under id "w". -/
def reqABCD : WorkflowRequest := ⟨some "w", "proj", "desc", [tA, tB, tC, tD], []⟩

/-- Store holding the freshly created four-task workflow. -/
def sABCD : Store := (create_workflow reqABCD "gen" 0 s0).1

/-- First pass over the chain: three tasks complete, then the pause
delivered before slot 3 halts the pass with status PAUSED. -/
def passOne : Store × RunState × List RunState :=
  execute_workflow cfgPause3 sABCD "w"

/-- Store after the paused first pass. -/
def storeAfterPause : Store := passOne.1

/-- Store after resuming the paused workflow. -/
def storeResumed : Store :=
  ((resume_workflow storeAfterPause "w").toOption).getD s0

/-- Second pass, relaunched by resume with no further pauses. -/
def passTwo : Store × RunState × List RunState :=
  execute_workflow cfgRun storeResumed "w"

/-- Create request for a single-task workflow under id "v". -/
def reqsingle : WorkflowRequest := ⟨some "v", "proj1", "desc1", [tA], []⟩

/-- Store holding the freshly created single-task workflow. -/
def sSingle : Store := (create_workflow reqsingle "g" 0 s0).1

/-- Store after the single-task workflow ran to completion. -/
def sSingleDone : Store := (execute_workflow cfgRun sSingle "v").1

/-- Create request supplying the already-used id "w4", first variant. -/
def reqDupA : WorkflowRequest := ⟨some "w4", "projA", "dA", [], []⟩

/-- Create request supplying the same id "w4", second variant. -/
def reqDupB : WorkflowRequest := ⟨some "w4", "projB", "dB", [], []⟩

/-- Store after creating the first "w4" workflow. -/
def sDup1 : Store := (create_workflow reqDupA "g1" 0 s0).1

/-- Store after the second create call reusing id "w4". -/
def sDup2 : Store := (create_workflow reqDupB "g2" 1 sDup1).1

/-- Skip scenario: "dev" runs, "pm" waits on the absent role "ghost",
"ba" depends on "dev"; schedule order is dev, pm, ba. -/
def reqSkip : WorkflowRequest := ⟨some "k", "projK", "dK", [tDev, tGhostDep, tBa], []⟩

/-- Store holding the freshly created skip-scenario workflow. -/
def sSkip : Store := (create_workflow reqSkip "g" 0 s0).1

/-- Two-task workflow a, b(dep a) under id "f" for the failure
scenario. -/
def reqFail : WorkflowRequest := ⟨some "f", "projF", "dF", [tA, tB], []⟩

/-- Store holding the freshly created failure-scenario workflow. -/
def sFail : Store := (create_workflow reqFail "g" 0 s0).1

/-- Create request with no caller-supplied identifier. -/
def reqNoId : WorkflowRequest := ⟨none, "projN", "dN", [], []⟩

/-- The four-task workflow record as created. -/
def wfABCD : Workflow := (create_workflow reqABCD "gen" 0 s0).2

/-- The paused four-task workflow record after the first pass. -/
def wfPaused : Workflow :=
  (dictGet storeAfterPause.workflows "w").getD wfABCD

/-- The completed single-task workflow record. -/
def wfSingleDone : Workflow :=
  (dictGet sSingleDone.workflows "v").getD wfABCD

/-- The skip-scenario workflow record as created. -/
def wfSkip : Workflow := (create_workflow reqSkip "g" 0 s0).2

/-- The failure-scenario workflow record as created. -/
def wfFail : Workflow := (create_workflow reqFail "g" 0 s0).2

/-- Control-flow-relevant components of a pass state: halted flag,
pass-local completed roles, result log, status, progress, error
message, and the event-trace shapes. -/
def RunCore : Type :=
  Bool × List String × List AgentResultEntry × WorkflowStatus × ℚ ×
    Option String × List EventShape

/-- Control-flow-relevant projection of a pass state: everything the
loop reads or the claims observe except the accumulated results map
(and the dispatched requests, which embed it). -/
def coreOf (st : RunState) : RunCore :=
  (st.halted, st.completed, st.log, st.wf.status, st.wf.progress,
   st.wf.error_message, shapeEvents st.events)

/-- The loop iteration replayed on the core components alone: used to
show that which tasks get dispatched never depends on the accumulated
results map (the pass-local completed list alone gates eligibility). -/
def stepCore (cfg : RunCfg) (wfid : String) (total : Nat)
    (c : RunCore) (i : Nat) (t : AgentTask) : RunCore :=
  match c with
  | (halted, completed, lg, status, progress, errm, shapes) =>
    if halted then (halted, completed, lg, status, progress, errm, shapes)
    else
      let status1 := if cfg.ext i then WorkflowStatus.paused else status
      if status1 = .paused then
        (true, completed, lg, .paused, progress, errm,
          shapes ++ [.pausedHalt i])
      else if ¬ t.dependencies.all (fun d => completed.contains d) then
        (false, completed, lg, status1, progress, errm,
          shapes ++ [.skipped i t])
      else
        match cfg.oracle t with
        | .ok p =>
            (false, completed ++ [t.agent_type],
              lg ++ [mkE wfid (cfg.now i) t p], status1,
              ((i + 1 : ℚ) / (total : ℚ)) * 100, errm,
              shapes ++ [.executed i t (mkE wfid (cfg.now i) t p)])
        | .error e =>
            (true, completed, lg, .failed, progress,
              some ("Task " ++ t.agent_type ++ " failed: " ++ e),
              shapes ++ [.failedHalt i t e])

theorem findq_map_set {α : Type} (k : String) (v : α) :
    ∀ l : List (String × α),
      (l.find? (fun q => q.1 == k)).isSome = true →
      ((l.map (fun q => if q.1 == k then (k, v) else q)).find?
        (fun q => q.1 == k)) = some (k, v) := by
  intro l
  induction l with
  | nil => intro h; simp at h
  | cons p l ih =>
      intro h
      rw [List.map_cons]
      by_cases hp : p.1 = k
      · have hgp : (if (p.1 == k) = true then ((k, v) : String × α) else p) = (k, v) := by
          simp [hp]
        rw [hgp]
        exact List.find?_cons_of_pos _ (by simp)
      · have hp' : (p.1 == k) = false := by simp [hp]
        have hgp : (if (p.1 == k) = true then ((k, v) : String × α) else p) = p := by
          simp [hp']
        rw [hgp, List.find?_cons_of_neg _ (by simp [hp'])]
        apply ih
        rwa [List.find?_cons_of_neg _ (by simp [hp'])] at h

theorem dictGet_dictSet_self {α : Type} (l : List (String × α)) (k : String) (v : α) :
    dictGet (dictSet l k v) k = some v := by
  by_cases h : (l.find? (fun q => q.1 == k)).isSome
  · have hset : dictSet l k v = l.map (fun q => if q.1 == k then (k, v) else q) := by
      simp [dictSet, h]
    rw [dictGet, hset, findq_map_set k v l h]
    rfl
  · have hnone : l.find? (fun q => q.1 == k) = none := by
      rcases hf : l.find? (fun q => q.1 == k) with _ | q
      · exact hf
      · rw [hf] at h; simp at h
    have hset : dictSet l k v = l ++ [(k, v)] := by
      simp [dictSet, hnone]
    rw [dictGet, hset, List.find?_append, hnone]
    simp [List.find?_cons_of_pos]

theorem runStep_of_halted (cfg : RunCfg) (wfid : String) (total : Nat)
    (st : RunState) (i : Nat) (t : AgentTask) (h : st.halted = true) :
    runStep cfg wfid total st i t = st := by
  simp [runStep, h]

theorem runSlots_of_halted (cfg : RunCfg) (wfid : String) (total : Nat) :
    ∀ (ts : List AgentTask) (i : Nat) (st : RunState), st.halted = true →
      runSlots cfg wfid total i ts st = st := by
  intro ts
  induction ts with
  | nil => intro i st _; rfl
  | cons t ts ih =>
      intro i st h
      simp only [runSlots, runStep_of_halted cfg wfid total st i t h]
      exact ih (i + 1) st h

theorem runSlots_append_slots (cfg : RunCfg) (wfid : String) (total : Nat) :
    ∀ (as bs : List AgentTask) (i : Nat) (st : RunState),
      runSlots cfg wfid total i (as ++ bs) st =
        runSlots cfg wfid total (i + as.length) bs (runSlots cfg wfid total i as st) := by
  intro as
  induction as with
  | nil => intro bs i st; simp [runSlots]
  | cons a as ih =>
      intro bs i st
      have e1 : runSlots cfg wfid total i ((a :: as) ++ bs) st =
          runSlots cfg wfid total (i + 1) (as ++ bs)
            (runStep cfg wfid total st i a) := rfl
      rw [e1, ih bs (i + 1)]
      have e2 : i + 1 + as.length = i + (a :: as).length := by
        simp only [List.length_cons]; omega
      rw [e2]
      rfl

theorem runTrace_head (cfg : RunCfg) (wfid : String) (total : Nat)
    (ts : List AgentTask) (i : Nat) (st : RunState) :
    (runTrace cfg wfid total i ts st).head? = some st := by
  cases ts <;> rfl

theorem runTrace_getLast (cfg : RunCfg) (wfid : String) (total : Nat) :
    ∀ (ts : List AgentTask) (i : Nat) (st : RunState),
      (runTrace cfg wfid total i ts st).getLast? =
        some (runSlots cfg wfid total i ts st) := by
  intro ts
  induction ts with
  | nil => intro i st; rfl
  | cons t ts ih =>
      intro i st
      simp only [runTrace, runSlots]
      rw [List.getLast?_cons, ih (i + 1)]
      simp

theorem runStep_no_ext (cfg : RunCfg) (wfid : String) (total : Nat)
    (st : RunState) (i : Nat) (t : AgentTask)
    (h1 : st.halted = false) (h2 : cfg.ext i = false) :
    runStep cfg wfid total st i t = stepBody cfg wfid total st i t := by
  simp [runStep, applyExt, h1, h2]

theorem execute_agent_task_fst (oracle : AgentTask → Except String ExecPayload)
    (wfid : String) (results : List (String × ResData)) (t : AgentTask) (now : Nat) :
    (execute_agent_task oracle wfid results t now).1 =
      ⟨t.agent_type, t.task,
        dictSet t.context "previous_results" (CtxVal.results results), 500, 7 / 10⟩ := by
  cases h : oracle t <;> simp [execute_agent_task, h]

theorem execute_agent_task_snd_ok (oracle : AgentTask → Except String ExecPayload)
    (wfid : String) (results : List (String × ResData)) (t : AgentTask) (now : Nat)
    (p : ExecPayload) (h : oracle t = .ok p) :
    (execute_agent_task oracle wfid results t now).2 =
      .ok ⟨t.agent_type, wfid ++ "_" ++ t.agent_type ++ "_" ++ toString now,
        p.response.getD "", p.confidence.getD (9 / 10), p.elapsed, "completed"⟩ := by
  simp [execute_agent_task, h]

theorem execute_agent_task_snd_err (oracle : AgentTask → Except String ExecPayload)
    (wfid : String) (results : List (String × ResData)) (t : AgentTask) (now : Nat)
    (e : String) (h : oracle t = .error e) :
    (execute_agent_task oracle wfid results t now).2 = .error e := by
  simp [execute_agent_task, h]

theorem stepBody_paused (cfg : RunCfg) (wfid : String) (total : Nat)
    (st : RunState) (i : Nat) (t : AgentTask) (h : st.wf.status = .paused) :
    stepBody cfg wfid total st i t =
      { st with halted := true, events := st.events ++ [.pausedHalt i] } := by
  simp [stepBody, h]

theorem stepBody_skip (cfg : RunCfg) (wfid : String) (total : Nat)
    (st : RunState) (i : Nat) (t : AgentTask)
    (h1 : st.wf.status ≠ .paused)
    (h2 : t.dependencies.all (fun d => st.completed.contains d) = false) :
    stepBody cfg wfid total st i t =
      { st with events := st.events ++ [.skipped i t] } := by
  unfold stepBody
  rw [if_neg h1, if_pos (show ¬ _ = true by intro hc; rw [hc] at h2; exact Bool.noConfusion h2)]

theorem stepBody_ok (cfg : RunCfg) (wfid : String) (total : Nat)
    (st : RunState) (i : Nat) (t : AgentTask) (entry : AgentResultEntry)
    (h1 : st.wf.status ≠ .paused)
    (h2 : t.dependencies.all (fun d => st.completed.contains d) = true)
    (hr : (execute_agent_task cfg.oracle wfid st.wf.results t (cfg.now i)).2 = .ok entry) :
    stepBody cfg wfid total st i t =
      { st with
        wf := { st.wf with
          progress := ((i + 1 : ℚ) / (total : ℚ)) * 100
          results := dictSet st.wf.results t.agent_type (resDataOf entry) }
        log := st.log ++ [entry]
        completed := st.completed ++ [t.agent_type]
        events := st.events ++
          [.executed i t (execute_agent_task cfg.oracle wfid st.wf.results t (cfg.now i)).1 entry] } := by
  unfold stepBody
  rw [if_neg h1, if_neg (fun hc => hc h2), hr]

theorem stepBody_err (cfg : RunCfg) (wfid : String) (total : Nat)
    (st : RunState) (i : Nat) (t : AgentTask) (e : String)
    (h1 : st.wf.status ≠ .paused)
    (h2 : t.dependencies.all (fun d => st.completed.contains d) = true)
    (hr : (execute_agent_task cfg.oracle wfid st.wf.results t (cfg.now i)).2 = .error e) :
    stepBody cfg wfid total st i t =
      { st with
        halted := true
        wf := { st.wf with
          status := .failed
          error_message := some ("Task " ++ t.agent_type ++ " failed: " ++ e) }
        events := st.events ++
          [.failedHalt i t (execute_agent_task cfg.oracle wfid st.wf.results t (cfg.now i)).1 e] } := by
  unfold stepBody
  rw [if_neg h1, if_neg (fun hc => hc h2), hr]

theorem keyLe_refl (a : Nat × Int) : keyLe a a = true := by
  simp [keyLe]

theorem keyLe_total (a b : Nat × Int) (h : keyLe a b = false) : keyLe b a = true := by
  simp only [keyLe, Bool.or_eq_false_iff, Bool.and_eq_false_iff,
    decide_eq_false_iff_not] at h
  simp only [keyLe, Bool.or_eq_true, Bool.and_eq_true, decide_eq_true_eq]
  rcases h with ⟨h1, h2⟩
  by_cases he : a.1 = b.1
  · right
    refine ⟨he.symm, ?_⟩
    rcases h2 with h2 | h2
    · exact absurd he h2
    · omega
  · left
    omega

theorem keyLe_trans (a b c : Nat × Int) (hab : keyLe a b = true)
    (hbc : keyLe b c = true) : keyLe a c = true := by
  simp only [keyLe, Bool.or_eq_true, Bool.and_eq_true, decide_eq_true_eq] at *
  rcases hab with h | ⟨h1, h2⟩ <;> rcases hbc with g | ⟨g1, g2⟩
  · left; omega
  · left; omega
  · left; omega
  · right; constructor
    · omega
    · omega

theorem keyLe_false_ne (a b : Nat × Int) (h : keyLe a b = false) : a ≠ b := by
  intro he
  rw [he, keyLe_refl] at h
  exact Bool.noConfusion h

theorem insertTask_perm (x : AgentTask) :
    ∀ l : List AgentTask, (insertTask x l).Perm (x :: l) := by
  intro l
  induction l with
  | nil => exact List.Perm.refl _
  | cons y ys ih =>
      rw [insertTask]
      split
      · exact List.Perm.refl _
      · exact (ih.cons y).trans (List.Perm.swap x y ys)

theorem sortTasks_perm (ts : List AgentTask) : (sortTasks ts).Perm ts := by
  induction ts with
  | nil => exact List.Perm.refl _
  | cons t ts ih =>
      have : sortTasks (t :: ts) = insertTask t (sortTasks ts) := rfl
      rw [this]
      exact (insertTask_perm t (sortTasks ts)).trans (ih.cons t)

theorem mem_insertTask (x a : AgentTask) (l : List AgentTask) :
    a ∈ insertTask x l ↔ a = x ∨ a ∈ l := by
  rw [(insertTask_perm x l).mem_iff, List.mem_cons]

theorem insertTask_pairwise (x : AgentTask) :
    ∀ l : List AgentTask,
      l.Pairwise (fun a b => keyLe (taskKey a) (taskKey b) = true) →
      (insertTask x l).Pairwise (fun a b => keyLe (taskKey a) (taskKey b) = true) := by
  intro l
  induction l with
  | nil => intro _; simp [insertTask]
  | cons y ys ih =>
      intro h
      rw [List.pairwise_cons] at h
      obtain ⟨hy, hys⟩ := h
      rw [insertTask]
      split
      · next hxy =>
          rw [List.pairwise_cons]
          refine ⟨?_, List.pairwise_cons.mpr ⟨hy, hys⟩⟩
          intro b hb
          rcases List.mem_cons.mp hb with rfl | hb
          · exact hxy
          · exact keyLe_trans _ _ _ hxy (hy b hb)
      · next hxy =>
          have hyx : keyLe (taskKey y) (taskKey x) = true :=
            keyLe_total _ _ (Bool.of_not_eq_true hxy)
          rw [List.pairwise_cons]
          refine ⟨?_, ih hys⟩
          intro b hb
          rcases (mem_insertTask x b ys).mp hb with rfl | hb
          · exact hyx
          · exact hy b hb

theorem sortTasks_pairwise (ts : List AgentTask) :
    (sortTasks ts).Pairwise (fun a b => keyLe (taskKey a) (taskKey b) = true) := by
  induction ts with
  | nil => simp [sortTasks]
  | cons t ts ih => exact insertTask_pairwise t (sortTasks ts) ih

theorem filter_insertTask (x : AgentTask) (k : Nat × Int) :
    ∀ l : List AgentTask,
      (insertTask x l).filter (fun t => decide (taskKey t = k)) =
        if taskKey x = k then
          x :: l.filter (fun t => decide (taskKey t = k))
        else l.filter (fun t => decide (taskKey t = k)) := by
  intro l
  induction l with
  | nil =>
      by_cases hx : taskKey x = k
      · simp [insertTask, hx]
      · simp [insertTask, hx]
  | cons y ys ih =>
      rw [insertTask]
      split
      · next hxy =>
          by_cases hx : taskKey x = k
          · simp [List.filter_cons, hx]
          · simp [List.filter_cons, hx]
      · next hxy =>
          have hne : taskKey x ≠ taskKey y :=
            keyLe_false_ne _ _ (Bool.of_not_eq_true hxy)
          by_cases hx : taskKey x = k
          · have hy : ¬ taskKey y = k := fun hyk => hne (hx.trans hyk.symm)
            simp [List.filter_cons, hy, ih, hx]
          · by_cases hy : taskKey y = k
            · simp [List.filter_cons, hy, ih, hx]
            · simp [List.filter_cons, hy, ih, hx]

theorem sortTasks_filter_key (ts : List AgentTask) (k : Nat × Int) :
    (sortTasks ts).filter (fun t => decide (taskKey t = k)) =
      ts.filter (fun t => decide (taskKey t = k)) := by
  induction ts with
  | nil => rfl
  | cons t ts ih =>
      have : sortTasks (t :: ts) = insertTask t (sortTasks ts) := rfl
      rw [this, filter_insertTask, List.filter_cons]
      by_cases ht : taskKey t = k
      · simp [ht, ih]
      · simp [ht, ih]

theorem execute_agent_task_snd_ok_mkE (oracle : AgentTask → Except String ExecPayload)
    (wfid : String) (results : List (String × ResData)) (t : AgentTask) (now : Nat)
    (p : ExecPayload) (h : oracle t = .ok p) :
    (execute_agent_task oracle wfid results t now).2 = .ok (mkE wfid now t p) := by
  rw [execute_agent_task_snd_ok oracle wfid results t now p h]
  rfl

theorem runStep_spec (cfg : RunCfg) (wfid : String) (total : Nat)
    (st : RunState) (i : Nat) (t : AgentTask) (h : st.halted = false) :
    ((cfg.ext i = true ∨ st.wf.status = .paused) ∧
      runStep cfg wfid total st i t =
        { st with
          wf := { st.wf with status := .paused }
          halted := true
          events := st.events ++ [.pausedHalt i] }) ∨
    (cfg.ext i = false ∧ st.wf.status ≠ .paused ∧
      t.dependencies.all (fun d => st.completed.contains d) = false ∧
      runStep cfg wfid total st i t =
        { st with events := st.events ++ [.skipped i t] }) ∨
    (∃ p : ExecPayload, cfg.ext i = false ∧ st.wf.status ≠ .paused ∧
      t.dependencies.all (fun d => st.completed.contains d) = true ∧
      cfg.oracle t = .ok p ∧
      runStep cfg wfid total st i t =
        { st with
          wf := { st.wf with
            progress := ((i + 1 : ℚ) / (total : ℚ)) * 100
            results := dictSet st.wf.results t.agent_type
              (resDataOf (mkE wfid (cfg.now i) t p)) }
          log := st.log ++ [mkE wfid (cfg.now i) t p]
          completed := st.completed ++ [t.agent_type]
          events := st.events ++ [.executed i t
            (execute_agent_task cfg.oracle wfid st.wf.results t (cfg.now i)).1
            (mkE wfid (cfg.now i) t p)] }) ∨
    (∃ e : String, cfg.ext i = false ∧ st.wf.status ≠ .paused ∧
      t.dependencies.all (fun d => st.completed.contains d) = true ∧
      cfg.oracle t = .error e ∧
      runStep cfg wfid total st i t =
        { st with
          halted := true
          wf := { st.wf with
            status := .failed
            error_message := some ("Task " ++ t.agent_type ++ " failed: " ++ e) }
          events := st.events ++ [.failedHalt i t
            (execute_agent_task cfg.oracle wfid st.wf.results t (cfg.now i)).1 e] }) := by
  by_cases hext : cfg.ext i = true
  · left
    refine ⟨Or.inl hext, ?_⟩
    have hae : applyExt cfg i st = { st with wf := { st.wf with status := .paused } } := by
      simp [applyExt, hext]
    rw [runStep, if_neg (by simp [h]), hae, stepBody_paused _ _ _ _ _ _ rfl]
  · have hextf : cfg.ext i = false := by simpa using hext
    have hae : applyExt cfg i st = st := by simp [applyExt, hextf]
    by_cases hp : st.wf.status = .paused
    · left
      refine ⟨Or.inr hp, ?_⟩
      rw [runStep, if_neg (by simp [h]), hae, stepBody_paused _ _ _ _ _ _ hp]
      obtain ⟨wf, lg, comp, evs, hlt⟩ := st
      obtain ⟨wid, pn, dsc, tks, md, stat, sa, ca, prog, res, errm⟩ := wf
      replace hp : stat = .paused := hp
      subst hp
      rfl
    · rcases hall : t.dependencies.all (fun d => st.completed.contains d) with _ | _
      · right; left
        refine ⟨hextf, hp, rfl, ?_⟩
        rw [runStep, if_neg (by simp [h]), hae, stepBody_skip _ _ _ _ _ _ hp hall]
      · rcases ho : cfg.oracle t with e | p
        · right; right; right
          refine ⟨e, hextf, hp, rfl, rfl, ?_⟩
          have hsnd := execute_agent_task_snd_err cfg.oracle wfid st.wf.results t (cfg.now i) e ho
          rw [runStep, if_neg (by simp [h]), hae, stepBody_err _ _ _ _ _ _ _ hp hall hsnd]
        · right; right; left
          refine ⟨p, hextf, hp, rfl, rfl, ?_⟩
          have hsnd := execute_agent_task_snd_ok_mkE cfg.oracle wfid st.wf.results t (cfg.now i) p ho
          rw [runStep, if_neg (by simp [h]), hae, stepBody_ok _ _ _ _ _ _ _ hp hall hsnd]

theorem runStep_halted_status (cfg : RunCfg) (wfid : String) (total : Nat)
    (st : RunState) (i : Nat) (t : AgentTask)
    (hst : st.halted = true → st.wf.status = .paused ∨ st.wf.status = .failed) :
    (runStep cfg wfid total st i t).halted = true →
      (runStep cfg wfid total st i t).wf.status = .paused ∨
      (runStep cfg wfid total st i t).wf.status = .failed := by
  by_cases h : st.halted = true
  · rw [runStep_of_halted cfg wfid total st i t h]
    exact fun _ => hst h
  · have h' : st.halted = false := by simpa using h
    rcases runStep_spec cfg wfid total st i t h' with
      ⟨_, heq⟩ | ⟨_, _, _, heq⟩ | ⟨p, _, _, _, _, heq⟩ | ⟨e, _, _, _, _, heq⟩
    · rw [heq]; intro _; left; rfl
    · rw [heq]
      intro hc
      exfalso
      rw [show ({ st with events := st.events ++ [RunEvent.skipped i t] } :
        RunState).halted = st.halted from rfl, h'] at hc
      exact Bool.noConfusion hc
    · rw [heq]
      intro hc
      exfalso
      rw [show (RunState.halted { st with
        wf := { st.wf with
          progress := ((i + 1 : ℚ) / (total : ℚ)) * 100
          results := dictSet st.wf.results t.agent_type
            (resDataOf (mkE wfid (cfg.now i) t p)) }
        log := st.log ++ [mkE wfid (cfg.now i) t p]
        completed := st.completed ++ [t.agent_type]
        events := st.events ++ [.executed i t
          (execute_agent_task cfg.oracle wfid st.wf.results t (cfg.now i)).1
          (mkE wfid (cfg.now i) t p)] }) = st.halted from rfl, h'] at hc
      exact Bool.noConfusion hc
    · rw [heq]; intro _; right; rfl

theorem runSlots_halted_status (cfg : RunCfg) (wfid : String) (total : Nat) :
    ∀ (ts : List AgentTask) (i : Nat) (st : RunState),
      (st.halted = true → st.wf.status = .paused ∨ st.wf.status = .failed) →
      (runSlots cfg wfid total i ts st).halted = true →
        (runSlots cfg wfid total i ts st).wf.status = .paused ∨
        (runSlots cfg wfid total i ts st).wf.status = .failed := by
  intro ts
  induction ts with
  | nil => intro i st hst; exact hst
  | cons t ts ih =>
      intro i st hst
      have hred : runSlots cfg wfid total i (t :: ts) st =
          runSlots cfg wfid total (i + 1) ts (runStep cfg wfid total st i t) := rfl
      rw [hred]
      exact ih (i + 1) _ (runStep_halted_status cfg wfid total st i t hst)

theorem runSlots_no_halt (cfg : RunCfg) (wfid : String) (total : Nat)
    (hext : ∀ j, cfg.ext j = false) :
    ∀ (ts : List AgentTask) (i : Nat) (st : RunState),
      (∀ t ∈ ts, isOkE (cfg.oracle t) = true) →
      st.halted = false → st.wf.status = .in_progress →
      (runSlots cfg wfid total i ts st).halted = false ∧
      (runSlots cfg wfid total i ts st).wf.status = .in_progress := by
  intro ts
  induction ts with
  | nil => intro i st _ h1 h2; exact ⟨h1, h2⟩
  | cons t ts ih =>
      intro i st hok h1 h2
      have hred : runSlots cfg wfid total i (t :: ts) st =
          runSlots cfg wfid total (i + 1) ts (runStep cfg wfid total st i t) := rfl
      rw [hred]
      rcases runStep_spec cfg wfid total st i t h1 with
        ⟨hcond, _⟩ | ⟨_, _, _, heq⟩ | ⟨p, _, _, _, _, heq⟩ | ⟨e, _, _, _, ho, _⟩
      · exfalso
        rcases hcond with hc | hc
        · rw [hext i] at hc; exact Bool.noConfusion hc
        · rw [h2] at hc; exact WorkflowStatus.noConfusion hc
      · rw [heq]
        exact ih (i + 1) _ (fun u hu => hok u (List.mem_cons_of_mem t hu)) h1 h2
      · rw [heq]
        exact ih (i + 1) _ (fun u hu => hok u (List.mem_cons_of_mem t hu)) h1 h2
      · exfalso
        have := hok t (List.mem_cons_self t ts)
        rw [ho] at this
        exact Bool.noConfusion this

theorem runStep_events_extend (cfg : RunCfg) (wfid : String) (total : Nat)
    (st : RunState) (i : Nat) (t : AgentTask) :
    ∃ tail, (runStep cfg wfid total st i t).events = st.events ++ tail := by
  by_cases hh : st.halted = true
  · exact ⟨[], by rw [runStep_of_halted _ _ _ _ _ _ hh]; simp⟩
  · have hh' : st.halted = false := by simpa using hh
    rcases runStep_spec cfg wfid total st i t hh' with
      ⟨_, heq⟩ | ⟨_, _, _, heq⟩ | ⟨p, _, _, _, _, heq⟩ | ⟨e, _, _, _, _, heq⟩
    · exact ⟨_, by rw [heq]⟩
    · exact ⟨_, by rw [heq]⟩
    · exact ⟨_, by rw [heq]⟩
    · exact ⟨_, by rw [heq]⟩

theorem runSlots_events_extend (cfg : RunCfg) (wfid : String) (total : Nat) :
    ∀ (ts : List AgentTask) (i : Nat) (st : RunState),
      ∃ tail, (runSlots cfg wfid total i ts st).events = st.events ++ tail := by
  intro ts
  induction ts with
  | nil => intro i st; exact ⟨[], by simp [runSlots]⟩
  | cons t ts ih =>
      intro i st
      have hred : runSlots cfg wfid total i (t :: ts) st =
          runSlots cfg wfid total (i + 1) ts (runStep cfg wfid total st i t) := rfl
      obtain ⟨tl1, h1⟩ := runStep_events_extend cfg wfid total st i t
      obtain ⟨tl2, h2⟩ := ih (i + 1) (runStep cfg wfid total st i t)
      exact ⟨tl1 ++ tl2, by rw [hred, h2, h1, List.append_assoc]⟩

theorem runSlots_events_sched (cfg : RunCfg) (wfid : String) (total : Nat)
    (sched : List AgentTask) :
    ∀ (ts : List AgentTask) (i : Nat) (st : RunState),
      (∀ j, ts.get? j = sched.get? (i + j)) →
      (∀ ev ∈ st.events, ∀ u, eventTask ev = some u →
        sched.get? (eventSlot ev) = some u) →
      ∀ ev ∈ (runSlots cfg wfid total i ts st).events, ∀ u,
        eventTask ev = some u → sched.get? (eventSlot ev) = some u := by
  intro ts
  induction ts with
  | nil => intro i st _ hev; exact hev
  | cons t ts ih =>
      intro i st hsk hev
      have hred : runSlots cfg wfid total i (t :: ts) st =
          runSlots cfg wfid total (i + 1) ts (runStep cfg wfid total st i t) := rfl
      rw [hred]
      have ht0 : sched.get? i = some t := by
        have h0 := hsk 0
        rw [Nat.add_zero] at h0
        exact h0.symm
      apply ih (i + 1)
      · intro j
        have hj := hsk (j + 1)
        rw [show (i + 1) + j = i + (j + 1) by omega]
        exact hj
      · by_cases hh : st.halted = true
        · rw [runStep_of_halted _ _ _ _ _ _ hh]; exact hev
        · have hh' : st.halted = false := by simpa using hh
          rcases runStep_spec cfg wfid total st i t hh' with
            ⟨_, heq⟩ | ⟨_, _, _, heq⟩ | ⟨p, _, _, _, _, heq⟩ | ⟨e, _, _, _, _, heq⟩
          · rw [heq]
            intro ev hevm u hu
            rcases List.mem_append.mp hevm with hin | hin
            · exact hev ev hin u hu
            · rw [List.mem_singleton] at hin
              subst hin
              simp [eventTask] at hu
          · rw [heq]
            intro ev hevm u hu
            rcases List.mem_append.mp hevm with hin | hin
            · exact hev ev hin u hu
            · rw [List.mem_singleton] at hin
              subst hin
              simp only [eventTask, Option.some.injEq] at hu
              subst hu
              simpa [eventSlot] using ht0
          · rw [heq]
            intro ev hevm u hu
            rcases List.mem_append.mp hevm with hin | hin
            · exact hev ev hin u hu
            · rw [List.mem_singleton] at hin
              subst hin
              simp only [eventTask, Option.some.injEq] at hu
              subst hu
              simpa [eventSlot] using ht0
          · rw [heq]
            intro ev hevm u hu
            rcases List.mem_append.mp hevm with hin | hin
            · exact hev ev hin u hu
            · rw [List.mem_singleton] at hin
              subst hin
              simp only [eventTask, Option.some.injEq] at hu
              subst hu
              simpa [eventSlot] using ht0

theorem runSlots_events_cover (cfg : RunCfg) (wfid : String) (total : Nat) :
    ∀ (ts : List AgentTask) (i : Nat) (st : RunState),
      st.halted = false →
      (runSlots cfg wfid total i ts st).halted = false →
      ∀ j u, ts.get? j = some u →
      ∃ ev ∈ (runSlots cfg wfid total i ts st).events,
        eventSlot ev = i + j ∧ eventTask ev = some u := by
  intro ts
  induction ts with
  | nil =>
      intro i st _ _ j u hj
      simp at hj
  | cons t ts ih =>
      intro i st hst hfin j u hj
      have hred : runSlots cfg wfid total i (t :: ts) st =
          runSlots cfg wfid total (i + 1) ts (runStep cfg wfid total st i t) := rfl
      have hstep_unhalted : (runStep cfg wfid total st i t).halted = false := by
        rcases hh : (runStep cfg wfid total st i t).halted with _ | _
        · rfl
        · exfalso
          rw [hred, runSlots_of_halted cfg wfid total ts (i + 1) _ hh, hh] at hfin
          exact Bool.noConfusion hfin
      have hfin' : (runSlots cfg wfid total (i + 1) ts
          (runStep cfg wfid total st i t)).halted = false := by
        rw [hred] at hfin; exact hfin
      obtain ⟨tail, htl⟩ := runSlots_events_extend cfg wfid total ts (i + 1)
        (runStep cfg wfid total st i t)
      rcases runStep_spec cfg wfid total st i t hst with
        ⟨_, heq⟩ | ⟨_, _, _, heq⟩ | ⟨p, _, _, _, _, heq⟩ | ⟨e, _, _, _, _, heq⟩
      · exfalso
        rw [heq] at hstep_unhalted
        exact Bool.noConfusion hstep_unhalted
      · cases j with
        | zero =>
            rw [List.get?_cons_zero, Option.some.injEq] at hj
            subst hj
            refine ⟨.skipped i t, ?_, by simp [eventSlot], by simp [eventTask]⟩
            rw [hred, htl, heq]
            simp
        | succ j =>
            rw [List.get?_cons_succ] at hj
            obtain ⟨ev, hm, hs, htk⟩ := ih (i + 1) (runStep cfg wfid total st i t)
              hstep_unhalted hfin' j u hj
            refine ⟨ev, ?_, by rw [hs]; omega, htk⟩
            rw [hred]
            exact hm
      · cases j with
        | zero =>
            rw [List.get?_cons_zero, Option.some.injEq] at hj
            subst hj
            refine ⟨.executed i t
              (execute_agent_task cfg.oracle wfid st.wf.results t (cfg.now i)).1
              (mkE wfid (cfg.now i) t p), ?_, by simp [eventSlot], by simp [eventTask]⟩
            rw [hred, htl, heq]
            simp
        | succ j =>
            rw [List.get?_cons_succ] at hj
            obtain ⟨ev, hm, hs, htk⟩ := ih (i + 1) (runStep cfg wfid total st i t)
              hstep_unhalted hfin' j u hj
            refine ⟨ev, ?_, by rw [hs]; omega, htk⟩
            rw [hred]
            exact hm
      · exfalso
        rw [heq] at hstep_unhalted
        exact Bool.noConfusion hstep_unhalted

theorem runSlots_dispatch_deps (cfg : RunCfg) (wfid : String) (total : Nat)
    (R : List String) :
    ∀ (ts : List AgentTask) (i : Nat) (st : RunState),
      (∀ t ∈ ts, t.agent_type ∈ R) →
      (∀ r ∈ st.completed, r ∈ R) →
      (∀ ev ∈ st.events, ∀ u, eventTask ev = some u →
        (eventReq ev).isSome = true → ∀ d ∈ u.dependencies, d ∈ R) →
      ∀ ev ∈ (runSlots cfg wfid total i ts st).events, ∀ u,
        eventTask ev = some u → (eventReq ev).isSome = true →
        ∀ d ∈ u.dependencies, d ∈ R := by
  intro ts
  induction ts with
  | nil => intro i st _ _ hev; exact hev
  | cons t ts ih =>
      intro i st hts hcomp hev
      have hred : runSlots cfg wfid total i (t :: ts) st =
          runSlots cfg wfid total (i + 1) ts (runStep cfg wfid total st i t) := rfl
      rw [hred]
      have hts' : ∀ u ∈ ts, u.agent_type ∈ R :=
        fun u hu => hts u (List.mem_cons_of_mem t hu)
      by_cases hh : st.halted = true
      · rw [runStep_of_halted _ _ _ _ _ _ hh]
        exact ih (i + 1) st hts' hcomp hev
      · have hh' : st.halted = false := by simpa using hh
        rcases runStep_spec cfg wfid total st i t hh' with
          ⟨_, heq⟩ | ⟨_, _, hall, heq⟩ | ⟨p, _, _, hall, _, heq⟩ | ⟨e, _, _, hall, _, heq⟩
        · rw [heq]
          refine ih (i + 1) _ hts' (fun r hr => hcomp r hr) ?_
          intro ev hevm u hu hrq
          rcases List.mem_append.mp hevm with hin | hin
          · exact hev ev hin u hu hrq
          · rw [List.mem_singleton] at hin
            subst hin
            simp [eventTask] at hu
        · rw [heq]
          refine ih (i + 1) _ hts' (fun r hr => hcomp r hr) ?_
          intro ev hevm u hu hrq
          rcases List.mem_append.mp hevm with hin | hin
          · exact hev ev hin u hu hrq
          · rw [List.mem_singleton] at hin
            subst hin
            simp [eventReq] at hrq
        · rw [heq]
          refine ih (i + 1) _ hts' ?_ ?_
          · intro r hr
            rcases List.mem_append.mp hr with hin | hin
            · exact hcomp r hin
            · rw [List.mem_singleton] at hin
              subst hin
              exact hts t (List.mem_cons_self t ts)
          · intro ev hevm u hu hrq
            rcases List.mem_append.mp hevm with hin | hin
            · exact hev ev hin u hu hrq
            · rw [List.mem_singleton] at hin
              subst hin
              simp only [eventTask, Option.some.injEq] at hu
              subst hu
              intro d hd
              have hd' : st.completed.contains d = true := by
                have := List.all_eq_true.mp hall d hd
                simpa using this
              exact hcomp d (by simpa using hd')
        · rw [heq]
          refine ih (i + 1) _ hts' (fun r hr => hcomp r hr) ?_
          intro ev hevm u hu hrq
          rcases List.mem_append.mp hevm with hin | hin
          · exact hev ev hin u hu hrq
          · rw [List.mem_singleton] at hin
            subst hin
            simp only [eventTask, Option.some.injEq] at hu
            subst hu
            intro d hd
            have hd' : st.completed.contains d = true := by
              have := List.all_eq_true.mp hall d hd
              simpa using this
            exact hcomp d (by simpa using hd')

theorem slot_bound (i T : ℕ) :
    ((i : ℚ) / (T : ℚ)) * 100 ≤ (((i : ℚ) + 1) / (T : ℚ)) * 100 := by
  rcases Nat.eq_zero_or_pos T with hT | hT
  · subst hT; simp
  · have hTQ : (0 : ℚ) < (T : ℚ) := by exact_mod_cast hT
    have h1 : (i : ℚ) / (T : ℚ) ≤ ((i : ℚ) + 1) / (T : ℚ) := by
      rw [div_le_div_iff_of_pos_right hTQ]
      linarith
    linarith

theorem total_bound (T : ℕ) : (((T : ℕ) : ℚ) / (T : ℚ)) * 100 ≤ 100 := by
  rcases Nat.eq_zero_or_pos T with hT | hT
  · subst hT; simp
  · have hne : (T : ℚ) ≠ 0 := by
      have : (0 : ℚ) < (T : ℚ) := by exact_mod_cast hT
      linarith
    rw [div_self hne, one_mul]

theorem runStep_progress (cfg : RunCfg) (wfid : String) (total : Nat)
    (st : RunState) (i : Nat) (t : AgentTask) :
    (runStep cfg wfid total st i t).wf.progress = st.wf.progress ∨
    (runStep cfg wfid total st i t).wf.progress =
      ((i + 1 : ℚ) / (total : ℚ)) * 100 := by
  by_cases hh : st.halted = true
  · left; rw [runStep_of_halted _ _ _ _ _ _ hh]
  · have hh' : st.halted = false := by simpa using hh
    rcases runStep_spec cfg wfid total st i t hh' with
      ⟨_, heq⟩ | ⟨_, _, _, heq⟩ | ⟨p, _, _, _, _, heq⟩ | ⟨e, _, _, _, _, heq⟩
    · left; rw [heq]
    · left; rw [heq]
    · right; rw [heq]
    · left; rw [heq]

theorem runTrace_progress (cfg : RunCfg) (wfid : String) (total : Nat) :
    ∀ (ts : List AgentTask) (i : Nat) (st : RunState),
      st.wf.progress ≤ ((i : ℚ) / (total : ℚ)) * 100 →
      List.Chain' (· ≤ ·)
        ((runTrace cfg wfid total i ts st).map (fun s => s.wf.progress)) ∧
      (runSlots cfg wfid total i ts st).wf.progress ≤
        (((i + ts.length : ℕ) : ℚ) / (total : ℚ)) * 100 := by
  intro ts
  induction ts with
  | nil =>
      intro i st hb
      constructor
      · simp [runTrace]
      · simpa using hb
  | cons t ts ih =>
      intro i st hb
      have hstep := runStep_progress cfg wfid total st i t
      have hb' : (runStep cfg wfid total st i t).wf.progress ≤
          (((i + 1 : ℕ) : ℚ) / (total : ℚ)) * 100 := by
        rcases hstep with he | he
        · rw [he]
          calc st.wf.progress ≤ ((i : ℚ) / (total : ℚ)) * 100 := hb
            _ ≤ (((i : ℚ) + 1) / (total : ℚ)) * 100 := slot_bound i total
            _ = (((i + 1 : ℕ) : ℚ) / (total : ℚ)) * 100 := by push_cast; ring
        · rw [he]
          have : ((i + 1 : ℚ) / (total : ℚ)) * 100 =
              (((i + 1 : ℕ) : ℚ) / (total : ℚ)) * 100 := by push_cast; ring
          rw [this]
      have hmono : st.wf.progress ≤ (runStep cfg wfid total st i t).wf.progress := by
        rcases hstep with he | he
        · rw [he]
        · rw [he]
          calc st.wf.progress ≤ ((i : ℚ) / (total : ℚ)) * 100 := hb
            _ ≤ (((i : ℚ) + 1) / (total : ℚ)) * 100 := slot_bound i total
            _ = ((i + 1 : ℚ) / (total : ℚ)) * 100 := by ring
      obtain ⟨hchain, hbound⟩ := ih (i + 1) (runStep cfg wfid total st i t) hb'
      constructor
      · have hred : runTrace cfg wfid total i (t :: ts) st =
            st :: runTrace cfg wfid total (i + 1) ts (runStep cfg wfid total st i t) := rfl
        rw [hred, List.map_cons, List.chain'_cons']
        refine ⟨?_, hchain⟩
        intro y hy
        rw [List.head?_map, runTrace_head] at hy
        simp only [Option.map_some', Option.mem_def, Option.some.injEq] at hy
        rw [← hy]
        exact hmono
      · have hred : runSlots cfg wfid total i (t :: ts) st =
            runSlots cfg wfid total (i + 1) ts (runStep cfg wfid total st i t) := rfl
        rw [hred]
        have hlen : i + (t :: ts).length = (i + 1) + ts.length := by
          simp only [List.length_cons]; omega
        rw [hlen]
        exact hbound

theorem runStep_core_eq (cfg : RunCfg) (wfid : String) (total : Nat)
    (st : RunState) (i : Nat) (t : AgentTask) :
    coreOf (runStep cfg wfid total st i t) =
      stepCore cfg wfid total (coreOf st) i t := by
  by_cases hh : st.halted = true
  · rw [runStep_of_halted _ _ _ _ _ _ hh]
    simp [coreOf, stepCore, hh]
  · have hh' : st.halted = false := by simpa using hh
    rcases runStep_spec cfg wfid total st i t hh' with
      ⟨cond, heq⟩ | ⟨hextf, hstat, hall, heq⟩ |
      ⟨p, hextf, hstat, hall, ho, heq⟩ | ⟨e, hextf, hstat, hall, ho, heq⟩
    · rw [heq]
      rcases cond with hext | hstat
      · simp [coreOf, stepCore, hh', hext, shapeEvents, shapeOf, List.map_append]
      · by_cases hext : cfg.ext i = true
        · simp [coreOf, stepCore, hh', hext, shapeEvents, shapeOf, List.map_append]
        · have hextf : cfg.ext i = false := by simpa using hext
          simp [coreOf, stepCore, hh', hextf, hstat, shapeEvents, shapeOf,
            List.map_append]
    · rw [heq]
      have hex : ∃ x ∈ t.dependencies, x ∉ st.completed := by
        simpa using hall
      simp [coreOf, stepCore, hh', hextf, hstat, hex, shapeEvents, shapeOf,
        List.map_append]
    · rw [heq]
      have hnex : ¬ ∃ x ∈ t.dependencies, x ∉ st.completed := by
        push_neg
        intro x hx
        have hm := List.all_eq_true.mp hall x hx
        simpa using hm
      simp [coreOf, stepCore, hh', hextf, hstat, hnex, ho, shapeEvents, shapeOf,
        List.map_append]
    · rw [heq]
      have hnex : ¬ ∃ x ∈ t.dependencies, x ∉ st.completed := by
        push_neg
        intro x hx
        have hm := List.all_eq_true.mp hall x hx
        simpa using hm
      simp [coreOf, stepCore, hh', hextf, hstat, hnex, ho, shapeEvents, shapeOf,
        List.map_append]

theorem runSlots_core (cfg : RunCfg) (wfid : String) (total : Nat) :
    ∀ (ts : List AgentTask) (i : Nat) (st₁ st₂ : RunState),
      coreOf st₁ = coreOf st₂ →
      coreOf (runSlots cfg wfid total i ts st₁) =
        coreOf (runSlots cfg wfid total i ts st₂) := by
  intro ts
  induction ts with
  | nil => intro i st₁ st₂ h; exact h
  | cons t ts ih =>
      intro i st₁ st₂ h
      have hred1 : runSlots cfg wfid total i (t :: ts) st₁ =
          runSlots cfg wfid total (i + 1) ts (runStep cfg wfid total st₁ i t) := rfl
      have hred2 : runSlots cfg wfid total i (t :: ts) st₂ =
          runSlots cfg wfid total (i + 1) ts (runStep cfg wfid total st₂ i t) := rfl
      rw [hred1, hred2]
      apply ih
      rw [runStep_core_eq, runStep_core_eq, h]

theorem append_singleton_decomp {α : Type} (l : List α) (x : α)
    (pre : List α) (ev : α) (post : List α)
    (h : l ++ [x] = pre ++ ev :: post) :
    (∃ post', l = pre ++ ev :: post' ∧ post = post' ++ [x]) ∨
    (pre = l ∧ ev = x ∧ post = []) := by
  rcases List.eq_nil_or_concat post with hpost | ⟨q, y, hpost⟩
  · subst hpost
    right
    obtain ⟨h1, h2⟩ := List.append_inj' h (by simp)
    exact ⟨h1.symm, by simpa using h2.symm, rfl⟩
  · subst hpost
    left
    rw [List.concat_eq_append] at h
    have h' : l ++ [x] = (pre ++ ev :: q) ++ [y] := by
      simpa [List.append_assoc] using h
    obtain ⟨h1, h2⟩ := List.append_inj' h' (by simp)
    have hy : x = y := by simpa using h2
    exact ⟨q, by rw [h1], by rw [hy, List.concat_eq_append]⟩

theorem resultsFromEvents_append_exec (es : List RunEvent) (i : Nat)
    (t : AgentTask) (req : AgentRequest) (entry : AgentResultEntry) :
    resultsFromEvents (es ++ [.executed i t req entry]) =
      dictSet (resultsFromEvents es) t.agent_type (resDataOf entry) := by
  simp [resultsFromEvents, List.foldl_append]

theorem resultsFromEvents_append_pause (es : List RunEvent) (i : Nat) :
    resultsFromEvents (es ++ [.pausedHalt i]) = resultsFromEvents es := by
  simp [resultsFromEvents, List.foldl_append]

theorem resultsFromEvents_append_skip (es : List RunEvent) (i : Nat)
    (t : AgentTask) :
    resultsFromEvents (es ++ [.skipped i t]) = resultsFromEvents es := by
  simp [resultsFromEvents, List.foldl_append]

theorem resultsFromEvents_append_fail (es : List RunEvent) (i : Nat)
    (t : AgentTask) (req : AgentRequest) (e : String) :
    resultsFromEvents (es ++ [.failedHalt i t req e]) = resultsFromEvents es := by
  simp [resultsFromEvents, List.foldl_append]

theorem snapshot_extend (es : List RunEvent) (x : RunEvent)
    (hP : ∀ pre ev post, es = pre ++ ev :: post → ∀ req, eventReq ev = some req →
      dictGet req.context "previous_results" =
        some (CtxVal.results (resultsFromEvents pre)))
    (hx : ∀ req, eventReq x = some req →
      dictGet req.context "previous_results" =
        some (CtxVal.results (resultsFromEvents es))) :
    ∀ pre ev post, es ++ [x] = pre ++ ev :: post → ∀ req, eventReq ev = some req →
      dictGet req.context "previous_results" =
        some (CtxVal.results (resultsFromEvents pre)) := by
  intro pre ev post h req hreq
  rcases append_singleton_decomp es x pre ev post h with ⟨post', h1, _⟩ | ⟨h1, h2, _⟩
  · exact hP pre ev post' h1 req hreq
  · subst h1
    rw [h2] at hreq
    exact hx req hreq

theorem runSlots_req_snapshot (cfg : RunCfg) (wfid : String) (total : Nat) :
    ∀ (ts : List AgentTask) (i : Nat) (st : RunState),
      st.wf.results = resultsFromEvents st.events →
      (∀ pre ev post, st.events = pre ++ ev :: post → ∀ req,
        eventReq ev = some req →
        dictGet req.context "previous_results" =
          some (CtxVal.results (resultsFromEvents pre))) →
      (runSlots cfg wfid total i ts st).wf.results =
          resultsFromEvents (runSlots cfg wfid total i ts st).events ∧
      (∀ pre ev post, (runSlots cfg wfid total i ts st).events = pre ++ ev :: post →
        ∀ req, eventReq ev = some req →
        dictGet req.context "previous_results" =
          some (CtxVal.results (resultsFromEvents pre))) := by
  intro ts
  induction ts with
  | nil => intro i st h1 h2; exact ⟨h1, h2⟩
  | cons t ts ih =>
      intro i st h1 h2
      have hred : runSlots cfg wfid total i (t :: ts) st =
          runSlots cfg wfid total (i + 1) ts (runStep cfg wfid total st i t) := rfl
      rw [hred]
      by_cases hh : st.halted = true
      · rw [runStep_of_halted _ _ _ _ _ _ hh]
        exact ih (i + 1) st h1 h2
      · have hh' : st.halted = false := by simpa using hh
        rcases runStep_spec cfg wfid total st i t hh' with
          ⟨_, heq⟩ | ⟨_, _, _, heq⟩ |
          ⟨p, _, _, _, _, heq⟩ | ⟨e, _, _, _, _, heq⟩
        · rw [heq]
          apply ih (i + 1)
          · show st.wf.results = resultsFromEvents (st.events ++ [.pausedHalt i])
            rw [resultsFromEvents_append_pause]
            exact h1
          · show ∀ pre ev post, st.events ++ [RunEvent.pausedHalt i] = pre ++ ev :: post → _
            apply snapshot_extend st.events _ h2
            intro req hreq
            simp [eventReq] at hreq
        · rw [heq]
          apply ih (i + 1)
          · show st.wf.results = resultsFromEvents (st.events ++ [.skipped i t])
            rw [resultsFromEvents_append_skip]
            exact h1
          · apply snapshot_extend st.events _ h2
            intro req hreq
            simp [eventReq] at hreq
        · rw [heq]
          apply ih (i + 1)
          · show dictSet st.wf.results t.agent_type
                (resDataOf (mkE wfid (cfg.now i) t p)) =
              resultsFromEvents (st.events ++ [.executed i t
                (execute_agent_task cfg.oracle wfid st.wf.results t (cfg.now i)).1
                (mkE wfid (cfg.now i) t p)])
            rw [resultsFromEvents_append_exec, h1]
          · apply snapshot_extend st.events _ h2
            intro req hreq
            simp only [eventReq, Option.some.injEq] at hreq
            subst hreq
            rw [execute_agent_task_fst]
            rw [show (AgentRequest.context ⟨t.agent_type, t.task,
              dictSet t.context "previous_results"
                (CtxVal.results st.wf.results), 500, 7 / 10⟩) =
              dictSet t.context "previous_results"
                (CtxVal.results st.wf.results) from rfl]
            rw [dictGet_dictSet_self, h1]
        · rw [heq]
          apply ih (i + 1)
          · show st.wf.results = resultsFromEvents (st.events ++ [.failedHalt i t
              (execute_agent_task cfg.oracle wfid st.wf.results t (cfg.now i)).1 e])
            rw [resultsFromEvents_append_fail]
            exact h1
          · apply snapshot_extend st.events _ h2
            intro req hreq
            simp only [eventReq, Option.some.injEq] at hreq
            subst hreq
            rw [execute_agent_task_fst]
            rw [show (AgentRequest.context ⟨t.agent_type, t.task,
              dictSet t.context "previous_results"
                (CtxVal.results st.wf.results), 500, 7 / 10⟩) =
              dictSet t.context "previous_results"
                (CtxVal.results st.wf.results) from rfl]
            rw [dictGet_dictSet_self, h1]

theorem dictGet_singleton {α : Type} (k : String) (v : α) :
    dictGet [(k, v)] k = some v := by
  simp [dictGet, List.find?_cons_of_pos]

theorem execute_workflow_parts (cfg : RunCfg) (s : Store) (id : String)
    (wf : Workflow) (hwf : dictGet s.workflows id = some wf) :
    (execute_workflow cfg s id).2.1.events = (passFin cfg s id wf).events ∧
    (execute_workflow cfg s id).2.1.halted = (passFin cfg s id wf).halted ∧
    (execute_workflow cfg s id).2.1.log = (passFin cfg s id wf).log ∧
    (execute_workflow cfg s id).2.1.completed = (passFin cfg s id wf).completed ∧
    (execute_workflow cfg s id).2.1.wf =
      (if (passFin cfg s id wf).halted then (passFin cfg s id wf).wf
       else { (passFin cfg s id wf).wf with
         status := .completed
         completed_at := some cfg.fin_time
         progress := 100 }) ∧
    (execute_workflow cfg s id).2.2 =
      runTrace cfg id wf.tasks.length 0 (sortTasks wf.tasks) (initState s id wf) ∧
    (execute_workflow cfg s id).1 =
      { workflows := dictSet s.workflows id (execute_workflow cfg s id).2.1.wf
        agent_results := dictSet s.agent_results id (passFin cfg s id wf).log } := by
  unfold execute_workflow passFin
  rw [hwf]
  refine ⟨?_, ?_, ?_, ?_, ?_, ?_, ?_⟩ <;> rfl

/-- C6: the Scheduler's execution order is the stable sort of the task
list by the key (ascending dependency count, then descending
priority): `sortTasks` — the embedding of the single up-front
`sorted(...)` call at line 214 — is a permutation of the task list,
is sorted for the lexicographic key order, preserves the original
relative order of equal-key tasks (stability), and every event of a
Runner pass concerns exactly the task sitting at its slot of this
precomputed schedule, for every oracle and pause pattern — the
schedule is computed once from the static task list and never
recomputed as tasks complete. -/
theorem C6_schedule_is_stable_sort (ts : List AgentTask) :
    (sortTasks ts).Perm ts ∧
    (sortTasks ts).Pairwise (fun a b => keyLe (taskKey a) (taskKey b) = true) ∧
    (∀ k : Nat × Int, (sortTasks ts).filter (fun t => decide (taskKey t = k)) =
      ts.filter (fun t => decide (taskKey t = k))) ∧
    (∀ (cfg : RunCfg) (s : Store) (id : String) (wf : Workflow),
      dictGet s.workflows id = some wf →
      ∀ ev ∈ (execute_workflow cfg s id).2.1.events, ∀ u,
        eventTask ev = some u →
        (sortTasks wf.tasks).get? (eventSlot ev) = some u) := by
  refine ⟨sortTasks_perm ts, sortTasks_pairwise ts,
    fun k => sortTasks_filter_key ts k, ?_⟩
  intro cfg s id wf hwf ev hev u hu
  obtain ⟨hevents, _⟩ := execute_workflow_parts cfg s id wf hwf
  rw [hevents] at hev
  unfold passFin at hev
  refine runSlots_events_sched cfg id wf.tasks.length (sortTasks wf.tasks)
    (sortTasks wf.tasks) 0 (initState s id wf) ?_ ?_ ev hev u hu
  · intro j
    rw [Nat.zero_add]
  · intro ev' hev'
    simp [initState] at hev'

/-- C6 witness: the skip-scenario schedule is a permutation of its
task list, and in the concrete completed run every event's task is
the schedule entry at its slot. -/
theorem C6_witness :
    (sortTasks [tDev, tGhostDep, tBa]).Perm [tDev, tGhostDep, tBa] ∧
    (∀ ev ∈ (execute_workflow cfgRun sSkip "k").2.1.events, ∀ u,
      eventTask ev = some u →
      (sortTasks wfSkip.tasks).get? (eventSlot ev) = some u) := by
  exact ⟨(C6_schedule_is_stable_sort [tDev, tGhostDep, tBa]).1,
    (C6_schedule_is_stable_sort wfSkip.tasks).2.2.2 cfgRun sSkip "k" wfSkip rfl⟩

/-- C8: Resume on an unknown id fails NotFound; on a stored workflow
whose status is not PAUSED it fails InvalidState — the handler raises
before any mutation, so nothing of the workflow (status, progress,
results, log) changes, which the model renders by returning no store
on the error path; from PAUSED it succeeds and changes exactly the
status, to IN_PROGRESS. -/
theorem C8_resume_only_from_paused (s : Store) (id : String) :
    (dictGet s.workflows id = none → resume_workflow s id = .error .notFound) ∧
    (∀ wf, dictGet s.workflows id = some wf →
      (wf.status ≠ .paused → resume_workflow s id = .error .invalidState) ∧
      (wf.status = .paused →
        resume_workflow s id = .ok { s with
          workflows := dictSet s.workflows id { wf with status := .in_progress } })) := by
  constructor
  · intro h
    unfold resume_workflow
    rw [h]
  · intro wf hwf
    constructor
    · intro hst
      simp [resume_workflow, hwf, hst]
    · intro hst
      simp [resume_workflow, hwf, hst]

/-- C8 witness: resuming the COMPLETED workflow "v" fails
InvalidState; resuming the PAUSED workflow "w" succeeds and sets
IN_PROGRESS. -/
theorem C8_witness :
    resume_workflow sSingleDone "v" = .error .invalidState ∧
    resume_workflow storeAfterPause "w" = .ok { storeAfterPause with
      workflows := dictSet storeAfterPause.workflows "w"
        { wfPaused with status := .in_progress } } := by
  constructor
  · exact ((C8_resume_only_from_paused sSingleDone "v").2 wfSingleDone rfl).1
      (by decide)
  · exact ((C8_resume_only_from_paused storeAfterPause "w").2 wfPaused rfl).2
      (by decide)

/-- C4 amended: CreateWorkflow assigns the generated identifier when
none is supplied and initializes status PENDING, progress 0, empty
results, empty log and no error message; but a supplied id that
already exists is NOT rejected — the source performs plain dict
assignment with no existence check, so the new PENDING record
unconditionally replaces any stored record under that id and the log
is reset. -/
theorem C4_amended_create_initializes_and_overwrites
    (req : WorkflowRequest) (gen : String) (now : Nat) (s : Store) :
    dictGet (create_workflow req gen now s).1.workflows
      (req.workflow_id.getD gen) = some (create_workflow req gen now s).2 ∧
    dictGet (create_workflow req gen now s).1.agent_results
      (req.workflow_id.getD gen) = some [] ∧
    (create_workflow req gen now s).2.status = .pending ∧
    (create_workflow req gen now s).2.progress = 0 ∧
    (create_workflow req gen now s).2.results = [] ∧
    (create_workflow req gen now s).2.error_message = none ∧
    (create_workflow req gen now s).2.completed_at = none ∧
    (create_workflow req gen now s).2.workflow_id = req.workflow_id.getD gen ∧
    (create_workflow req gen now s).2.tasks = req.tasks ∧
    (req.workflow_id = none → req.workflow_id.getD gen = gen) := by
  refine ⟨?_, ?_, rfl, rfl, rfl, rfl, rfl, rfl, rfl, ?_⟩
  · exact dictGet_dictSet_self s.workflows (req.workflow_id.getD gen) _
  · exact dictGet_dictSet_self s.agent_results (req.workflow_id.getD gen) _
  · intro h
    rw [h]
    rfl

/-- C4 witness: creating with no supplied id stores a PENDING record
under the generated id. -/
theorem C4_witness :
    dictGet (create_workflow reqNoId "gX" 2 s0).1.workflows "gX" =
      some (create_workflow reqNoId "gX" 2 s0).2 ∧
    (create_workflow reqNoId "gX" 2 s0).2.status = .pending ∧
    reqNoId.workflow_id.getD "gX" = "gX" := by
  obtain ⟨h1, _, h3, _, _, _, _, _, _, h10⟩ :=
    C4_amended_create_initializes_and_overwrites reqNoId "gX" 2 s0
  exact ⟨h1, h3, h10 rfl⟩

/-- C4 counterexample: two CreateWorkflow calls both supplying id
"w4".  The claim says the second must fail and leave the existing
record unchanged; in the code the second call succeeds and the stored
record's project name silently changes from "projA" to "projB" — the
existing workflow is overwritten. -/
theorem C4_counterexample_duplicate_id_overwrites :
    (dictGet sDup1.workflows "w4").map (fun wf => wf.project_name) =
      some "projA" ∧
    (dictGet sDup2.workflows "w4").map (fun wf => wf.project_name) =
      some "projB" := by
  exact ⟨rfl, rfl⟩

/-- C3 amended: Pause never checks the current status: for every
stored workflow — including one already in a terminal state
(COMPLETED or FAILED) — Pause succeeds and sets status PAUSED, so
terminal states are NOT immutable and there is no no-op guard on
Pause; only Resume is guarded: it succeeds exactly from PAUSED,
moving the workflow back to IN_PROGRESS. -/
theorem C3_amended_pause_unguarded (s : Store) (id : String) (wf : Workflow)
    (hwf : dictGet s.workflows id = some wf) :
    pause_workflow s id = .ok { s with
      workflows := dictSet s.workflows id { wf with status := .paused } } ∧
    (∀ s', pause_workflow s id = .ok s' → statusAt s' id = some .paused) ∧
    (resume_workflow s id = .ok { s with
      workflows := dictSet s.workflows id { wf with status := .in_progress } } ↔
      wf.status = .paused) := by
  refine ⟨?_, ?_, ?_, ?_⟩
  · unfold pause_workflow
    rw [hwf]
  · intro s' h
    unfold pause_workflow at h
    rw [hwf] at h
    injection h with h
    subst h
    unfold statusAt
    rw [dictGet_dictSet_self]
    rfl
  · intro h
    by_cases hst : wf.status = .paused
    · exact hst
    · exfalso
      simp [resume_workflow, hwf, hst] at h
  · intro hst
    simp [resume_workflow, hwf, hst]

/-- C3 witness: pausing the COMPLETED workflow "v" succeeds and sets
PAUSED; resuming it is legal exactly when it is paused. -/
theorem C3_witness :
    pause_workflow sSingleDone "v" = .ok { sSingleDone with
      workflows := dictSet sSingleDone.workflows "v"
        { wfSingleDone with status := .paused } } ∧
    (resume_workflow sSingleDone "v" = .ok { sSingleDone with
      workflows := dictSet sSingleDone.workflows "v"
        { wfSingleDone with status := .in_progress } } ↔
      wfSingleDone.status = .paused) := by
  have h := C3_amended_pause_unguarded sSingleDone "v" wfSingleDone rfl
  exact ⟨h.1, h.2.2⟩

/-- C3 counterexample: workflow "v" has run to COMPLETED — a terminal
state the claim says no subsequent operation may change — yet Pause
succeeds and its stored status becomes PAUSED. -/
theorem C3_counterexample_pause_completed :
    statusAt sSingleDone "v" = some .completed ∧
    (pause_workflow sSingleDone "v").toOption.map (fun s => statusAt s "v") =
      some (some .paused) := by
  exact ⟨rfl, rfl⟩

/-- C10: every Runner pass begins by unconditionally writing
IN_PROGRESS: the first observation point of any pass shows
IN_PROGRESS regardless of the stored status (PENDING, PAUSED, even a
terminal state); consequently a Pause that lands before the first
loop iteration is overwritten — on any workflow whose precomputed
schedule starts with a dependency-free task, a pass with no pause
signal at slot 0 and a successful executor dispatches that task as
its first event, even if the status was PAUSED when the pass began. -/
theorem C10_pass_overwrites_prior_pause (cfg : RunCfg) (s : Store) (id : String)
    (wf : Workflow) (hwf : dictGet s.workflows id = some wf) :
    ((execute_workflow cfg s id).2.2.head?.map (fun st => st.wf.status) =
      some .in_progress) ∧
    (∀ t ts', sortTasks wf.tasks = t :: ts' → cfg.ext 0 = false →
      t.dependencies = [] → ∀ p, cfg.oracle t = .ok p →
      ∃ tail, (execute_workflow cfg s id).2.1.events =
        .executed 0 t
          (execute_agent_task cfg.oracle id wf.results t (cfg.now 0)).1
          (mkE id (cfg.now 0) t p) :: tail) := by
  obtain ⟨hevents, _, _, _, _, htrace, _⟩ := execute_workflow_parts cfg s id wf hwf
  constructor
  · rw [htrace, runTrace_head]
    rfl
  · intro t ts' hsched hext0 hdeps p hp
    rw [hevents]
    unfold passFin
    rw [hsched]
    have hred : runSlots cfg id wf.tasks.length 0 (t :: ts') (initState s id wf) =
        runSlots cfg id wf.tasks.length 1 ts'
          (runStep cfg id wf.tasks.length (initState s id wf) 0 t) := rfl
    rw [hred]
    have hstep : runStep cfg id wf.tasks.length (initState s id wf) 0 t =
        stepBody cfg id wf.tasks.length (initState s id wf) 0 t :=
      runStep_no_ext cfg id wf.tasks.length (initState s id wf) 0 t rfl hext0
    have hall : t.dependencies.all
        (fun d => (initState s id wf).completed.contains d) = true := by
      rw [hdeps]
      rfl
    have hsnd := execute_agent_task_snd_ok_mkE cfg.oracle id
      (initState s id wf).wf.results t (cfg.now 0) p hp
    have hbody := stepBody_ok cfg id wf.tasks.length (initState s id wf) 0 t
      (mkE id (cfg.now 0) t p) (by intro hc; exact WorkflowStatus.noConfusion hc)
      hall hsnd
    rw [hstep, hbody]
    obtain ⟨tail, htl⟩ := runSlots_events_extend cfg id wf.tasks.length ts' 1 _
    refine ⟨tail, ?_⟩
    rw [htl]
    rfl

/-- C10 witness: a pass launched on the PAUSED four-task workflow
starts IN_PROGRESS and its first event executes task a. -/
theorem C10_witness :
    ((execute_workflow cfgRun storeAfterPause "w").2.2.head?.map
      (fun st => st.wf.status) = some .in_progress) ∧
    (∃ tail, (execute_workflow cfgRun storeAfterPause "w").2.1.events =
      .executed 0 tA
        (execute_agent_task cfgRun.oracle "w" wfPaused.results tA (cfgRun.now 0)).1
        (mkE "w" (cfgRun.now 0) tA ⟨some ("R-" ++ "a"), some (1 / 2), 1⟩) :: tail) := by
  have h := C10_pass_overwrites_prior_pause cfgRun storeAfterPause "w" wfPaused rfl
  exact ⟨h.1, h.2 tA [tB, tC, tD] (by decide) rfl (by decide)
    ⟨some ("R-" ++ "a"), some (1 / 2), 1⟩ rfl⟩

/-- C7: with an executor that succeeds on every task of the workflow
and no pause requests, a task carrying a dependency role that no task
of the workflow provides is never dispatched to the executor — every
dispatched event's task has the offending role absent from its
dependencies, and the ineligible task's own slot is visited exactly
once and only skipped — while the skip is not fatal: the pass still
ends COMPLETED with progress forced to 100, both in the pass state
and in the store. -/
theorem C7_unsatisfied_dependency_skipped (cfg : RunCfg) (s : Store)
    (id : String) (wf : Workflow) (t : AgentTask) (d : String)
    (hwf : dictGet s.workflows id = some wf)
    (hok : ∀ u ∈ wf.tasks, isOkE (cfg.oracle u) = true)
    (hext : ∀ j, cfg.ext j = false)
    (ht : t ∈ wf.tasks) (hd : d ∈ t.dependencies)
    (hghost : d ∉ rolesOf wf.tasks) :
    (execute_workflow cfg s id).2.1.wf.status = .completed ∧
    (execute_workflow cfg s id).2.1.wf.progress = 100 ∧
    statusAt (execute_workflow cfg s id).1 id = some .completed ∧
    (∀ ev ∈ (execute_workflow cfg s id).2.1.events, ∀ u,
      eventTask ev = some u → (eventReq ev).isSome = true →
      d ∉ u.dependencies) ∧
    (∃ ev ∈ (execute_workflow cfg s id).2.1.events,
      eventTask ev = some t ∧ eventReq ev = none) := by
  obtain ⟨hevents, hhalted, _, _, hwfF, _, hstore⟩ :=
    execute_workflow_parts cfg s id wf hwf
  have hok' : ∀ u ∈ sortTasks wf.tasks, isOkE (cfg.oracle u) = true := by
    intro u hu
    exact hok u ((sortTasks_perm wf.tasks).mem_iff.mp hu)
  obtain ⟨hnh, _⟩ := runSlots_no_halt cfg id wf.tasks.length hext
    (sortTasks wf.tasks) 0 (initState s id wf) hok' rfl rfl
  have hfin : (passFin cfg s id wf).halted = false := hnh
  have hwfF' : (execute_workflow cfg s id).2.1.wf =
      { (passFin cfg s id wf).wf with
        status := .completed
        completed_at := some cfg.fin_time
        progress := 100 } := by
    rw [hwfF, if_neg (by simp [hfin])]
  have hdeps : ∀ ev ∈ (execute_workflow cfg s id).2.1.events, ∀ u,
      eventTask ev = some u → (eventReq ev).isSome = true →
      ∀ x ∈ u.dependencies, x ∈ rolesOf wf.tasks := by
    intro ev hev u hu hrq
    rw [hevents] at hev
    unfold passFin at hev
    refine runSlots_dispatch_deps cfg id wf.tasks.length (rolesOf wf.tasks)
      (sortTasks wf.tasks) 0 (initState s id wf) ?_ ?_ ?_ ev hev u hu hrq
    · intro u' hu'
      exact List.mem_map_of_mem _ ((sortTasks_perm wf.tasks).mem_iff.mp hu')
    · intro r hr
      simp [initState] at hr
    · intro ev' hev'
      simp [initState] at hev'
  refine ⟨?_, ?_, ?_, ?_, ?_⟩
  · rw [hwfF']
  · rw [hwfF']
  · unfold statusAt
    rw [hstore]
    show ((dictGet (dictSet s.workflows id _) id).map _) = _
    rw [dictGet_dictSet_self]
    rw [hwfF']
    rfl
  · intro ev hev u hu hrq hdin
    exact hghost (hdeps ev hev u hu hrq d hdin)
  · have hts : t ∈ sortTasks wf.tasks := (sortTasks_perm wf.tasks).mem_iff.mpr ht
    obtain ⟨n, hn⟩ := List.mem_iff_get.mp hts
    have hget : (sortTasks wf.tasks).get? n.1 = some t := by
      rw [List.get?_eq_get n.2, hn]
    obtain ⟨ev, hevm, _, htask⟩ := runSlots_events_cover cfg id wf.tasks.length
      (sortTasks wf.tasks) 0 (initState s id wf) rfl hnh n.1 t hget
    refine ⟨ev, ?_, htask, ?_⟩
    · rw [hevents]
      exact hevm
    · rcases hr : eventReq ev with _ | req
      · rfl
      · exfalso
        have := hdeps ev (by rw [hevents]; exact hevm) t htask
          (by rw [hr]; rfl) d hd
        exact hghost this

/-- C7 witness: in the concrete skip run, role pm (whose dependency
"ghost" is provided by no task) is only skipped and the workflow
still completes. -/
theorem C7_witness :
    (execute_workflow cfgRun sSkip "k").2.1.wf.status = .completed ∧
    (∃ ev ∈ (execute_workflow cfgRun sSkip "k").2.1.events,
      eventTask ev = some tGhostDep ∧ eventReq ev = none) := by
  have h := C7_unsatisfied_dependency_skipped cfgRun sSkip "k" wfSkip
    tGhostDep "ghost" rfl (by decide) (fun j => rfl) (by decide) (by decide)
    (by decide)
  exact ⟨h.1, h.2.2.2.2⟩

/-- C9: immediately before each executor call the Runner injects
context["previous_results"] := the current snapshot of the results
map — stated for every call of `execute_agent_task` (so the injection
is per task, not once per workflow) — and over a pass started on a
fresh workflow (empty results map) the request recorded in each
dispatch event carries exactly the results accumulated by the
successful dispatches preceding it in the event trace. -/
theorem C9_previous_results_snapshot :
    (∀ (oracle : AgentTask → Except String ExecPayload) (wfid : String)
      (results : List (String × ResData)) (t : AgentTask) (now : Nat),
      dictGet (execute_agent_task oracle wfid results t now).1.context
        "previous_results" = some (CtxVal.results results)) ∧
    (∀ (cfg : RunCfg) (s : Store) (id : String) (wf : Workflow),
      dictGet s.workflows id = some wf → wf.results = [] →
      ∀ pre ev post,
        (execute_workflow cfg s id).2.1.events = pre ++ ev :: post →
        ∀ req, eventReq ev = some req →
        dictGet req.context "previous_results" =
          some (CtxVal.results (resultsFromEvents pre))) := by
  constructor
  · intro oracle wfid results t now
    rw [execute_agent_task_fst]
    exact dictGet_dictSet_self t.context "previous_results" (CtxVal.results results)
  · intro cfg s id wf hwf hres pre ev post hev req hreq
    obtain ⟨hevents, _⟩ := execute_workflow_parts cfg s id wf hwf
    rw [hevents] at hev
    unfold passFin at hev
    refine (runSlots_req_snapshot cfg id wf.tasks.length (sortTasks wf.tasks) 0
      (initState s id wf) ?_ ?_).2 pre ev post hev req hreq
    · show wf.results = resultsFromEvents []
      rw [hres]
      rfl
    · intro pre' ev' post' hdec
      simp [initState] at hdec

/-- C9 witness: a direct `execute_agent_task` call carries the given
results snapshot, and in the concrete fresh four-task run every
recorded request holds exactly the results of the dispatches before
it. -/
theorem C9_witness :
    dictGet (execute_agent_task okOracle "w" [("a", ⟨"R-a", 1 / 2, 1⟩)] tB 5).1.context
      "previous_results" = some (CtxVal.results [("a", ⟨"R-a", 1 / 2, 1⟩)]) ∧
    (∀ pre ev post,
      (execute_workflow cfgRun sABCD "w").2.1.events = pre ++ ev :: post →
      ∀ req, eventReq ev = some req →
      dictGet req.context "previous_results" =
        some (CtxVal.results (resultsFromEvents pre))) := by
  exact ⟨C9_previous_results_snapshot.1 okOracle "w" _ tB 5,
    C9_previous_results_snapshot.2 cfgRun sABCD "w" wfABCD rfl rfl⟩

/-- C5: when the pass reaches a slot un-halted, no pause signal lands
there, the slot's task is eligible, and its executor call fails with
cause `e`, then the workflow transitions to FAILED (in the pass state
and in the store), `error_message` is exactly
"Task <role> failed: <cause>" — which contains both the agent role
and the cause — and the pass's whole event trace ends at that single
failure event: no later slot of the precomputed schedule produces any
event, so nothing after the failing task is executed and FAILED is
assigned exactly once. -/
theorem C5_executor_failure_fail_fast (cfg : RunCfg) (s : Store) (id : String)
    (wf : Workflow) (ts₁ ts₂ : List AgentTask) (t : AgentTask) (e : String)
    (hwf : dictGet s.workflows id = some wf)
    (hsched : sortTasks wf.tasks = ts₁ ++ t :: ts₂)
    (hnothalt : (runSlots cfg id wf.tasks.length 0 ts₁ (initState s id wf)).halted = false)
    (hnopause : cfg.ext ts₁.length = false)
    (hstatus : (runSlots cfg id wf.tasks.length 0 ts₁ (initState s id wf)).wf.status ≠ .paused)
    (helig : t.dependencies.all (fun d =>
      (runSlots cfg id wf.tasks.length 0 ts₁ (initState s id wf)).completed.contains d) = true)
    (hfail : cfg.oracle t = .error e) :
    (execute_workflow cfg s id).2.1.wf.status = .failed ∧
    (execute_workflow cfg s id).2.1.wf.error_message =
      some ("Task " ++ t.agent_type ++ " failed: " ++ e) ∧
    (∃ x y, "Task " ++ t.agent_type ++ " failed: " ++ e = x ++ t.agent_type ++ y) ∧
    (∃ x, "Task " ++ t.agent_type ++ " failed: " ++ e = x ++ e) ∧
    (execute_workflow cfg s id).2.1.events =
      (runSlots cfg id wf.tasks.length 0 ts₁ (initState s id wf)).events ++
        [.failedHalt ts₁.length t
          (execute_agent_task cfg.oracle id
            (runSlots cfg id wf.tasks.length 0 ts₁ (initState s id wf)).wf.results t
            (cfg.now ts₁.length)).1 e] ∧
    statusAt (execute_workflow cfg s id).1 id = some .failed := by
  obtain ⟨hevents, _, _, _, hwfF, _, hstore⟩ := execute_workflow_parts cfg s id wf hwf
  have hrun : passFin cfg s id wf =
      runSlots cfg id wf.tasks.length ts₁.length (t :: ts₂)
        (runSlots cfg id wf.tasks.length 0 ts₁ (initState s id wf)) := by
    unfold passFin
    rw [hsched, runSlots_append_slots, Nat.zero_add]
  have hstep : runStep cfg id wf.tasks.length
      (runSlots cfg id wf.tasks.length 0 ts₁ (initState s id wf)) ts₁.length t =
      stepBody cfg id wf.tasks.length
        (runSlots cfg id wf.tasks.length 0 ts₁ (initState s id wf)) ts₁.length t :=
    runStep_no_ext _ _ _ _ _ _ hnothalt hnopause
  have hsnd := execute_agent_task_snd_err cfg.oracle id
    (runSlots cfg id wf.tasks.length 0 ts₁ (initState s id wf)).wf.results t
    (cfg.now ts₁.length) e hfail
  have hbody := stepBody_err cfg id wf.tasks.length
    (runSlots cfg id wf.tasks.length 0 ts₁ (initState s id wf)) ts₁.length t e
    hstatus helig hsnd
  have hPF : passFin cfg s id wf =
      { (runSlots cfg id wf.tasks.length 0 ts₁ (initState s id wf)) with
        halted := true
        wf := { (runSlots cfg id wf.tasks.length 0 ts₁ (initState s id wf)).wf with
          status := .failed
          error_message := some ("Task " ++ t.agent_type ++ " failed: " ++ e) }
        events := (runSlots cfg id wf.tasks.length 0 ts₁ (initState s id wf)).events ++
          [.failedHalt ts₁.length t
            (execute_agent_task cfg.oracle id
              (runSlots cfg id wf.tasks.length 0 ts₁ (initState s id wf)).wf.results t
              (cfg.now ts₁.length)).1 e] } := by
    rw [hrun]
    have hred : runSlots cfg id wf.tasks.length ts₁.length (t :: ts₂)
        (runSlots cfg id wf.tasks.length 0 ts₁ (initState s id wf)) =
        runSlots cfg id wf.tasks.length (ts₁.length + 1) ts₂
          (runStep cfg id wf.tasks.length
            (runSlots cfg id wf.tasks.length 0 ts₁ (initState s id wf)) ts₁.length t) := rfl
    rw [hred, hstep, hbody]
    exact runSlots_of_halted cfg id wf.tasks.length ts₂ (ts₁.length + 1) _ rfl
  refine ⟨?_, ?_, ?_, ?_, ?_, ?_⟩
  · rw [hwfF, hPF]
    rfl
  · rw [hwfF, hPF]
    rfl
  · exact ⟨"Task ", " failed: " ++ e,
      String.append_assoc ("Task " ++ t.agent_type) " failed: " e⟩
  · exact ⟨"Task " ++ t.agent_type ++ " failed: ", rfl⟩
  · rw [hevents, hPF]
  · unfold statusAt
    rw [hstore]
    show ((dictGet (dictSet s.workflows id _) id).map _) = _
    rw [dictGet_dictSet_self]
    rw [hwfF, hPF]
    rfl

/-- C5 witness: the two-task run where the executor fails on role b
ends FAILED with the expected message, in the pass and in the store. -/
theorem C5_witness :
    (execute_workflow cfgFailB sFail "f").2.1.wf.status = .failed ∧
    (execute_workflow cfgFailB sFail "f").2.1.wf.error_message =
      some ("Task " ++ "b" ++ " failed: " ++ "boom") ∧
    statusAt (execute_workflow cfgFailB sFail "f").1 "f" = some .failed := by
  have h := C5_executor_failure_fail_fast cfgFailB sFail "f" wfFail [tA] [] tB
    "boom" rfl (by decide) (by decide) rfl (by decide) (by decide) rfl
  exact ⟨h.1, h.2.1, h.2.2.2.2.2⟩

/-- C1 amended (the code violates the original claim): a Runner pass
relaunched by Resume does re-evaluate the same precomputed schedule
from the beginning, but its completed-roles set starts EMPTY, not
seeded from `results`: the control flow of a pass — which slots
pause, skip, dispatch or fail, together with the resulting status,
progress, result log and error message — is entirely independent of
the workflow's accumulated results map.  In particular a task whose
agent role already appears in `results` is NOT treated as completed:
resume restarts from the first schedule slot and invokes the Agent
Executor again for every task whose dependencies are met within the
new pass. -/
theorem C1_amended_pass_ignores_results (cfg : RunCfg) (id : String)
    (wf : Workflow) (r₁ r₂ : List (String × ResData))
    (lg : List AgentResultEntry) :
    shapeEvents (execute_workflow cfg
        ⟨[(id, { wf with results := r₁ })], [(id, lg)]⟩ id).2.1.events =
      shapeEvents (execute_workflow cfg
        ⟨[(id, { wf with results := r₂ })], [(id, lg)]⟩ id).2.1.events ∧
    (execute_workflow cfg ⟨[(id, { wf with results := r₁ })], [(id, lg)]⟩ id).2.1.wf.status =
      (execute_workflow cfg ⟨[(id, { wf with results := r₂ })], [(id, lg)]⟩ id).2.1.wf.status ∧
    (execute_workflow cfg ⟨[(id, { wf with results := r₁ })], [(id, lg)]⟩ id).2.1.wf.progress =
      (execute_workflow cfg ⟨[(id, { wf with results := r₂ })], [(id, lg)]⟩ id).2.1.wf.progress ∧
    (execute_workflow cfg ⟨[(id, { wf with results := r₁ })], [(id, lg)]⟩ id).2.1.log =
      (execute_workflow cfg ⟨[(id, { wf with results := r₂ })], [(id, lg)]⟩ id).2.1.log := by
  obtain ⟨hev1, hh1, hlog1, _, hwfF1, _, _⟩ := execute_workflow_parts cfg
    ⟨[(id, { wf with results := r₁ })], [(id, lg)]⟩ id { wf with results := r₁ }
    (dictGet_singleton id _)
  obtain ⟨hev2, hh2, hlog2, _, hwfF2, _, _⟩ := execute_workflow_parts cfg
    ⟨[(id, { wf with results := r₂ })], [(id, lg)]⟩ id { wf with results := r₂ }
    (dictGet_singleton id _)
  have hps1 : passFin cfg ⟨[(id, { wf with results := r₁ })], [(id, lg)]⟩ id
      { wf with results := r₁ } =
      runSlots cfg id wf.tasks.length 0 (sortTasks wf.tasks)
        (initState ⟨[(id, { wf with results := r₁ })], [(id, lg)]⟩ id
          { wf with results := r₁ }) := rfl
  have hps2 : passFin cfg ⟨[(id, { wf with results := r₂ })], [(id, lg)]⟩ id
      { wf with results := r₂ } =
      runSlots cfg id wf.tasks.length 0 (sortTasks wf.tasks)
        (initState ⟨[(id, { wf with results := r₂ })], [(id, lg)]⟩ id
          { wf with results := r₂ }) := rfl
  have hcore0 : coreOf (initState ⟨[(id, { wf with results := r₁ })], [(id, lg)]⟩ id
      { wf with results := r₁ }) =
      coreOf (initState ⟨[(id, { wf with results := r₂ })], [(id, lg)]⟩ id
        { wf with results := r₂ }) := by
    simp [coreOf, initState, dictGet_singleton, shapeEvents]
  have hcoreF := runSlots_core cfg id wf.tasks.length (sortTasks wf.tasks) 0
    (initState ⟨[(id, { wf with results := r₁ })], [(id, lg)]⟩ id
      { wf with results := r₁ })
    (initState ⟨[(id, { wf with results := r₂ })], [(id, lg)]⟩ id
      { wf with results := r₂ }) hcore0
  have hsh : shapeEvents (passFin cfg ⟨[(id, { wf with results := r₁ })], [(id, lg)]⟩
      id { wf with results := r₁ }).events =
      shapeEvents (passFin cfg ⟨[(id, { wf with results := r₂ })], [(id, lg)]⟩
        id { wf with results := r₂ }).events := by
    rw [hps1, hps2]
    exact congrArg (fun c => c.2.2.2.2.2.2) hcoreF
  have hhalted : (passFin cfg ⟨[(id, { wf with results := r₁ })], [(id, lg)]⟩
      id { wf with results := r₁ }).halted =
      (passFin cfg ⟨[(id, { wf with results := r₂ })], [(id, lg)]⟩
        id { wf with results := r₂ }).halted := by
    rw [hps1, hps2]
    exact congrArg (fun c => c.1) hcoreF
  have hstat : (passFin cfg ⟨[(id, { wf with results := r₁ })], [(id, lg)]⟩
      id { wf with results := r₁ }).wf.status =
      (passFin cfg ⟨[(id, { wf with results := r₂ })], [(id, lg)]⟩
        id { wf with results := r₂ }).wf.status := by
    rw [hps1, hps2]
    exact congrArg (fun c => c.2.2.2.1) hcoreF
  have hprog : (passFin cfg ⟨[(id, { wf with results := r₁ })], [(id, lg)]⟩
      id { wf with results := r₁ }).wf.progress =
      (passFin cfg ⟨[(id, { wf with results := r₂ })], [(id, lg)]⟩
        id { wf with results := r₂ }).wf.progress := by
    rw [hps1, hps2]
    exact congrArg (fun c => c.2.2.2.2.1) hcoreF
  have hlg : (passFin cfg ⟨[(id, { wf with results := r₁ })], [(id, lg)]⟩
      id { wf with results := r₁ }).log =
      (passFin cfg ⟨[(id, { wf with results := r₂ })], [(id, lg)]⟩
        id { wf with results := r₂ }).log := by
    rw [hps1, hps2]
    exact congrArg (fun c => c.2.2.1) hcoreF
  refine ⟨?_, ?_, ?_, ?_⟩
  · rw [hev1, hev2]
    exact hsh
  · rw [hwfF1, hwfF2]
    by_cases hx : (passFin cfg ⟨[(id, { wf with results := r₁ })], [(id, lg)]⟩
        id { wf with results := r₁ }).halted = true
    · rw [if_pos hx, if_pos (hhalted ▸ hx)]
      exact hstat
    · rw [if_neg hx, if_neg (hhalted ▸ hx)]
  · rw [hwfF1, hwfF2]
    by_cases hx : (passFin cfg ⟨[(id, { wf with results := r₁ })], [(id, lg)]⟩
        id { wf with results := r₁ }).halted = true
    · rw [if_pos hx, if_pos (hhalted ▸ hx)]
      exact hprog
    · rw [if_neg hx, if_neg (hhalted ▸ hx)]
  · rw [hlog1, hlog2]
    exact hlg

/-- C1 counterexample: the four-task chain is paused before slot 3
with results containing roles a, b, c; after Resume the claim demands
that those roles be skipped without invoking the Agent Executor again
and that execution continue from the first not-yet-completed task (d);
instead the relaunched pass's very first event (slot 0) re-executes
role a — the executor is invoked again for a role already present in
`results`. -/
theorem C1_counterexample_resume_reexecutes :
    statusAt storeAfterPause "w" = some .paused ∧
    (dictGet storeAfterPause.workflows "w").map
      (fun wf => (dictGet wf.results "a").isSome) = some true ∧
    statusAt storeResumed "w" = some .in_progress ∧
    (passTwo.2.1.events.head?.map
      (fun ev => (eventSlot ev, eventTask ev, isExec ev))) =
      some (0, some tA, true) := by
  exact ⟨rfl, rfl, rfl, rfl⟩

/-- C2 amended (the code violates the original claim): progress is
recomputed only on a successful dispatch, and to
100 * (slotIndex + 1) / totalTasks — the index of the slot in the
precomputed schedule, counting skipped slots — not to
100 * completedCount / totalCount; it is forced to exactly 100 at
COMPLETED; and along one Runner pass started on a fresh workflow
(progress 0) the observed progress values are monotonically
non-decreasing.  Across pause/resume progress can decrease, and with
skipped slots it can differ from 100 * completedCount / totalCount
(see the counterexample). -/
theorem C2_amended_progress (cfg : RunCfg) (s : Store) (id : String)
    (wf : Workflow) (hwf : dictGet s.workflows id = some wf)
    (h0 : wf.progress = 0) :
    List.Chain' (· ≤ ·) (passObs (execute_workflow cfg s id)) ∧
    ((execute_workflow cfg s id).2.1.wf.status = .completed →
      (execute_workflow cfg s id).2.1.wf.progress = 100) ∧
    (∀ (st : RunState) (i : Nat) (u : AgentTask) (p : ExecPayload),
      st.halted = false → cfg.ext i = false → st.wf.status ≠ .paused →
      u.dependencies.all (fun d => st.completed.contains d) = true →
      cfg.oracle u = .ok p →
      (runStep cfg id wf.tasks.length st i u).wf.progress =
        ((i + 1 : ℚ) / (wf.tasks.length : ℚ)) * 100) := by
  obtain ⟨_, _, _, _, hwfF, htrace, _⟩ := execute_workflow_parts cfg s id wf hwf
  have hb0 : (initState s id wf).wf.progress ≤
      (((0 : ℕ) : ℚ) / (wf.tasks.length : ℚ)) * 100 := by
    show wf.progress ≤ _
    rw [h0]
    simp
  obtain ⟨hchain, hbound⟩ := runTrace_progress cfg id wf.tasks.length
    (sortTasks wf.tasks) 0 (initState s id wf) hb0
  refine ⟨?_, ?_, ?_⟩
  · unfold passObs
    rw [htrace, List.chain'_append]
    refine ⟨hchain, List.chain'_singleton _, ?_⟩
    intro x hx y hy
    rw [List.getLast?_map, runTrace_getLast] at hx
    simp only [Option.map_some', Option.mem_def, Option.some.injEq] at hx
    subst hx
    simp only [List.head?_cons, Option.mem_def, Option.some.injEq] at hy
    subst hy
    rw [hwfF]
    by_cases hx2 : (passFin cfg s id wf).halted = true
    · rw [if_pos hx2]
      exact le_refl _
    · rw [if_neg hx2]
      show (runSlots cfg id wf.tasks.length 0 (sortTasks wf.tasks)
        (initState s id wf)).wf.progress ≤ 100
      calc (runSlots cfg id wf.tasks.length 0 (sortTasks wf.tasks)
          (initState s id wf)).wf.progress
          ≤ (((0 + (sortTasks wf.tasks).length : ℕ) : ℚ) /
              (wf.tasks.length : ℚ)) * 100 := hbound
        _ ≤ 100 := by
            rw [Nat.zero_add, (sortTasks_perm wf.tasks).length_eq]
            exact total_bound wf.tasks.length
  · intro hcomp
    by_cases hx : (passFin cfg s id wf).halted = true
    · exfalso
      have hps : (passFin cfg s id wf).wf.status = .paused ∨
          (passFin cfg s id wf).wf.status = .failed :=
        runSlots_halted_status cfg id wf.tasks.length (sortTasks wf.tasks) 0
          (initState s id wf) (fun hc => Bool.noConfusion hc) hx
      rw [hwfF, if_pos hx] at hcomp
      rcases hps with hp | hp
      · rw [hcomp] at hp
        exact WorkflowStatus.noConfusion hp
      · rw [hcomp] at hp
        exact WorkflowStatus.noConfusion hp
    · rw [hwfF, if_neg hx]
  · intro st i u p hh hext hstp hall hp
    have hstep : runStep cfg id wf.tasks.length st i u =
        stepBody cfg id wf.tasks.length st i u :=
      runStep_no_ext _ _ _ _ _ _ hh hext
    have hsnd := execute_agent_task_snd_ok_mkE cfg.oracle id st.wf.results u
      (cfg.now i) p hp
    have hbody := stepBody_ok cfg id wf.tasks.length st i u
      (mkE id (cfg.now i) u p) hstp hall hsnd
    rw [hstep, hbody]

/-- C2 witness: the fresh four-task run has monotone observed
progress, and a concrete successful step writes the slot formula. -/
theorem C2_witness :
    List.Chain' (· ≤ ·) (passObs (execute_workflow cfgRun sABCD "w")) ∧
    (runStep cfgRun "w" wfABCD.tasks.length (initState sABCD "w" wfABCD) 0 tA).wf.progress =
      ((0 + 1 : ℚ) / (wfABCD.tasks.length : ℚ)) * 100 := by
  have h := C2_amended_progress cfgRun sABCD "w" wfABCD rfl rfl
  refine ⟨h.1, ?_⟩
  exact h.2.2 (initState sABCD "w" wfABCD) 0 tA
    ⟨some ("R-" ++ "a"), some (1 / 2), 1⟩ rfl rfl
    (by intro hc; exact WorkflowStatus.noConfusion hc) (by decide) rfl

/-- C2 counterexample: the four-task chain completes slots 0-2
(progress 75, status PAUSED with results for a, b, c), is resumed, and
the relaunched pass's observation after its first slot shows progress
25 while the results map still holds 3 of the 4 roles: the stored
progress 25 differs from 100 * completedCount / totalCount = 75, and
the observed sequence 75 → 25 is decreasing across pause/resume —
both parts of the claim fail at this concrete input. -/
theorem C2_counterexample_progress_formula_and_monotonicity :
    progressAt storeAfterPause "w" = some 75 ∧
    statusAt storeAfterPause "w" = some .paused ∧
    (passTwo.2.2.get? 1).map (fun st => st.wf.progress) = some 25 ∧
    (passTwo.2.2.get? 1).map (fun st => st.wf.results.length) = some 3 ∧
    ((25 : ℚ) = 100 * 3 / 4 → False) ∧ ((75 : ℚ) ≤ 25 → False) := by
  have h1 : progressAt storeAfterPause "w" =
      some ((((2 : ℕ) : ℚ) + 1) / (((4 : ℕ)) : ℚ) * 100) := rfl
  have h2 : (passTwo.2.2.get? 1).map (fun st => st.wf.progress) =
      some ((((0 : ℕ) : ℚ) + 1) / (((4 : ℕ)) : ℚ) * 100) := rfl
  have e1 : (((2 : ℕ) : ℚ) + 1) / (((4 : ℕ)) : ℚ) * 100 = 75 := by norm_num
  have e2 : (((0 : ℕ) : ℚ) + 1) / (((4 : ℕ)) : ℚ) * 100 = 25 := by norm_num
  refine ⟨by rw [h1, e1], rfl, by rw [h2, e2], rfl, by norm_num, by norm_num⟩
